import Mathlib

/-!
# pgcapture: the Postgres replay sink and the capture gateway

A shallow embedding of `pkg/sink/postgres.go` and `pkg/dblog/gateway.go`.

* Go slices are lists, `uint64`/`uint32` values are natural numbers, `int64`
  values are integers wrapped explicitly where Go wraps them.
* A `[]byte` datum is kept as a string (one character per byte).
* Calls that leave the process (statements sent to the target database,
  `RefreshKeys`, writes to a channel, calls on the upstream source, sends to
  the subscriber) are appended to a trace in program order; what such a call
  returns is read from an environment that may depend on the whole history.
* A run-time panic is an explicit outcome.
* Calls to the logger are left out: they change neither the sink, the target
  database nor any channel.
-/

set_option autoImplicit false

/-! ## Messages (`pkg/pb`) -/

namespace pb

/-- One column of a tuple: `pb.Field` with its name, type OID and binary datum. -/
structure Field where
  Name : String
  Oid : Nat
  Datum : String
deriving DecidableEq, Repr

/-- The operations of `pb.Change` that `handleChange` dispatches on. -/
inductive Op where
  | INSERT
  | UPDATE
  | DELETE
deriving DecidableEq, Repr

/-- A row change, `pb.Change`. `OldTuple` is `none` for a Go `nil` slice, which
`handleUpdate` tells apart from an empty one; for `NewTuple` the two behave alike. -/
structure Change where
  Op : Op
  Namespace : String
  Table : String
  NewTuple : List Field
  OldTuple : Option (List Field)
deriving DecidableEq, Repr

/-- The `Type` oneof of `pb.Message`; `Unset` is a message whose `Type` is nil. -/
inductive Message where
  | Begin
  | Change (c : pb.Change)
  | Commit (CommitTime : Nat)
  | Unset
deriving DecidableEq, Repr

end pb

/-! ## Checkpoints and changes (`pkg/source`) -/

namespace source

/-- A position in the change stream, `source.Checkpoint`. -/
structure Checkpoint where
  LSN : Nat
  Time : Int
deriving DecidableEq, Repr

/-- A message together with its position, `source.Change`. -/
structure Change where
  Checkpoint : Checkpoint
  Message : pb.Message
deriving DecidableEq, Repr

end source

/-! ## Statement builders (`pkg/sql`) and DDL detection (`pkg/decode`) -/

namespace sql

/-- The statement text handed to `ExecParams`. The builders live in `pkg/sql`,
so a statement is kept as the builder call with its arguments. -/
inductive Query where
  | InsertQuery (ns table : String) (fields : List pb.Field)
  | DeleteQuery (ns table : String) (fields : List pb.Field)
  | UpdateQuery (ns table : String) (sets keys : List pb.Field)
deriving DecidableEq, Repr

end sql

namespace decode

/-- Modelled from the spec: `decode.ExtensionNamespace`, the reserved schema name. -/
def ExtensionNamespace : String := "pgcapture"

/-- Modelled from the spec: `decode.ExtensionDDLLogs`, the reserved table name. -/
def ExtensionDDLLogs : String := "ddl_logs"

/-- Modelled from the spec: `decode.IsDDL`, a change is a DDL change when its
`(Namespace, Table)` is the reserved `(pgcapture, ddl_logs)` pair. -/
def IsDDL (m : pb.Change) : Bool :=
  m.Namespace == ExtensionNamespace && m.Table == ExtensionDDLLogs

end decode

/-! ## The Postgres sink (`pkg/sink/postgres.go`) -/

namespace sink

/-- Reinterpretation of an integer as a Go `int64` (two's complement wrap-around). -/
def wrapInt64 (x : Int) : Int :=
  (x + 2 ^ 63) % 2 ^ 64 - 2 ^ 63

def microInSecond : Int := 1000000

def nsInSecond : Int := 1000

def microsecFromUnixEpochToY2K : Int := 946684800 * 1000000

/-- `PGTime2Time`: the two arguments `(sec, nsec)` it hands to `time.Unix`.
`int64(ts)`, the sum and the product wrap as Go `int64` arithmetic does; `/` and
`%` truncate towards zero. -/
def PGTime2Time (ts : Nat) : Int × Int :=
  let micro := wrapInt64 (microsecFromUnixEpochToY2K + wrapInt64 (ts : Int))
  (Int.tdiv micro microInSecond, wrapInt64 (Int.tmod micro microInSecond * nsInSecond))

/-- `pgTz`: the timestamp parameter bound for a commit time. -/
def pgTz (ts : Nat) : Int × Int :=
  PGTime2Time ts

def UpdateSourceSQL : String :=
  "insert into pgcapture.sources(id,commit,commit_ts) values ($1,$2,$3) on conflict (id) do update set commit=EXCLUDED.commit,commit_ts=EXCLUDED.commit_ts,apply_ts=now()"

/-- Whether `sub` occurs in `s` as a contiguous run. -/
def containsSub (sub : List Char) : List Char → Bool
  | [] => sub.isEmpty
  | c :: cs => sub.isPrefixOf (c :: cs) || containsSub sub cs

/-- `TableLoadDDLRegex.Match` for the pattern `(CREATE TABLE AS|SELECT)`: an
unanchored alternation of two literals matches exactly when one of them occurs. -/
def TableLoadDDLRegex.Match (b : String) : Bool :=
  containsSub "CREATE TABLE AS".toList b.toList || containsSub "SELECT".toList b.toList

/-- `ErrIncompleteTx`, and any other error value identified by its message. -/
inductive Error where
  | ErrIncompleteTx
  | Other (msg : String)
deriving DecidableEq, Repr

/-- What leaves the sink, in program order. -/
inductive Effect where
  /-- `p.conn.Exec(ctx, sql)` -/
  | Exec (sql : String)
  /-- `p.conn.Prepare(ctx, name, sql)` -/
  | Prepare (name sql : String)
  /-- `p.conn.Exec(ctx, sql, pgText(id), pgInt8(commit), pgTz(ts))` -/
  | ExecArgs (sql : String) (id : String) (commit : Int) (commitTs : Int × Int)
  /-- `p.raw.ExecParams(ctx, query, vals, oids, paramFormats, resultFormats)` -/
  | ExecParams (query : sql.Query) (vals : List String) (oids : List Nat)
      (paramFormats resultFormats : List Nat)
  /-- `p.schema.RefreshKeys()` -/
  | RefreshKeys
  /-- `committed <- cp` -/
  | Committed (cp : source.Checkpoint)
deriving DecidableEq, Repr

/-- The primary-key cache of the schema loader as `GetTableKey` reads it. -/
abbrev KeyCache := String → String → Except String (List String)

/-- The target database as the sink sees it: the error (if any) each call
returns after a given history of calls, and the key columns a successful
`RefreshKeys` loads at that point. -/
structure Target where
  reply : List Effect → Effect → Option String
  catalog : List Effect → KeyCache

/-- Issue one call: it is recorded, and its error comes from the target. -/
def Target.call (w : Target) (tr : List Effect) (e : Effect) : List Effect × Option Error :=
  (tr ++ [e], (w.reply tr e).map Error.Other)

/-- The fields of `PGXSink` that `Apply` reads or writes. -/
structure PGXSink where
  SourceID : String
  schema : KeyCache
  lsn : Nat
  inTX : Bool
  skip : Bool
  refresh : Bool

/-- How a handler invocation ends. -/
inductive Status where
  | ok
  | failed (e : Error)
  | panicked
deriving DecidableEq, Repr

/-- The `err` a handler returns, as a status. -/
def Status.ofErr : Option Error → Status
  | none => Status.ok
  | some e => Status.failed e

/-- Modelled from the spec: `PGXSchemaLoader.RefreshKeys` (`pkg/decode`) queries
the catalog of the target and rebuilds the whole mapping atomically; on error the
cache is left as it was. -/
def RefreshKeys (w : Target) (schema : KeyCache) (tr : List Effect) :
    KeyCache × List Effect × Option Error :=
  let r := w.call tr Effect.RefreshKeys
  match r.2 with
  | some e => (schema, r.1, some e)
  | none => (w.catalog tr, r.1, none)

/-- The last lines of `findCheckpoint`, once the checkpoint `cp` has been
looked up: a non-zero LSN is stored minus one. -/
def findCheckpoint (p : PGXSink) (cp : source.Checkpoint) : PGXSink × source.Checkpoint :=
  if cp.LSN ≠ 0 then ({ p with lsn := cp.LSN - 1 }, cp) else (p, cp)

def handleBegin (w : Target) (tr : List Effect) : List Effect × Option Error :=
  w.call tr (Effect.Exec "begin")

/-- The loop of `handleDDL` over `m.NewTuple`, carrying the named result `err`. -/
def handleDDL.loop (w : Target) :
    PGXSink → List Effect → Option Error → List pb.Field → PGXSink × List Effect × Option Error
  | p, tr, err, [] => (p, tr, err)
  | p, tr, err, field :: rest =>
    if field.Name = "query" then
      let r := w.call tr (Effect.Exec field.Datum)
      handleDDL.loop w p r.1 r.2 rest
    else if field.Name = "tags" then
      handleDDL.loop w { p with skip := TableLoadDDLRegex.Match field.Datum } tr err rest
    else
      handleDDL.loop w p tr err rest

/-- `handleDDL`: runs the loop, then `return nil`. -/
def handleDDL (w : Target) (p : PGXSink) (tr : List Effect) (m : pb.Change) :
    PGXSink × List Effect × Option Error :=
  let r := handleDDL.loop w p tr none m.NewTuple
  (r.1, r.2.1, none)

def handleInsert (w : Target) (tr : List Effect) (m : pb.Change) : List Effect × Option Error :=
  w.call tr (Effect.ExecParams (sql.Query.InsertQuery m.Namespace m.Table m.NewTuple)
    (m.NewTuple.map (fun f => f.Datum)) (m.NewTuple.map (fun f => f.Oid))
    (m.NewTuple.map (fun _ => 1)) (m.NewTuple.map (fun _ => 1)))

def handleDelete (w : Target) (tr : List Effect) (m : pb.Change) : List Effect × Option Error :=
  let old := m.OldTuple.getD []
  w.call tr (Effect.ExecParams (sql.Query.DeleteQuery m.Namespace m.Table old)
    (old.map (fun f => f.Datum)) (old.map (fun f => f.Oid))
    (old.map (fun _ => 1)) (old.map (fun _ => 1)))

/-- The three parameter slices `vals`, `oids`, `fmts` of `handleUpdate`. -/
structure Params where
  vals : List String
  oids : List Nat
  fmts : List Nat
deriving DecidableEq, Repr

/-- The slices as `make(..., fields)` leaves them: `fields` zero values each. -/
def Params.make (fields : Nat) : Params :=
  ⟨List.replicate fields "", List.replicate fields 0, List.replicate fields 0⟩

/-- The three writes `vals[j] = field.Datum; oids[j] = field.Oid; fmts[j] = 1`;
`none` when index `j` is out of range (a run-time panic). -/
def Params.bind (ps : Params) (j : Nat) (field : pb.Field) : Option Params :=
  if j < ps.vals.length then
    some ⟨ps.vals.set j field.Datum, ps.oids.set j field.Oid, ps.fmts.set j 1⟩
  else none

/-- The loop `for _, f := range m.NewTuple` of `handleUpdate`: a field whose
name is in `kf` is appended to `keys`, any other to `sets`. -/
def handleUpdate.split (kf : List String) :
    List pb.Field → List pb.Field → List pb.Field → List pb.Field × List pb.Field
  | keys, sets, [] => (keys, sets)
  | keys, sets, f :: rest =>
    if f.Name ∈ kf then handleUpdate.split kf (keys ++ [f]) sets rest
    else handleUpdate.split kf keys (sets ++ [f]) rest

/-- The loop `for ; j < len(sets); j++` of `handleUpdate`, over the fields of
`sets` not yet bound; it returns the final `j`. -/
def handleUpdate.bindSets : List pb.Field → Nat → Params → Option (Nat × Params)
  | [], j, ps => some (j, ps)
  | field :: rest, j, ps =>
    match ps.bind j field with
    | none => none
    | some ps1 => handleUpdate.bindSets rest (j + 1) ps1

/-- The loop `for i := 0; i < len(keys); i++` of `handleUpdate`, over the
fields of `keys` not yet bound; each round starts with `j = i + j`. -/
def handleUpdate.bindKeys : List pb.Field → Nat → Nat → Params → Option Params
  | [], _, _, ps => some ps
  | field :: rest, i, j, ps =>
    match ps.bind (i + j) field with
    | none => none
    | some ps1 => handleUpdate.bindKeys rest (i + 1) (i + j) ps1

/-- The values the index `j` takes in the successive rounds of the key loop of
`handleUpdate` (`j = i + j` at the start of each round), whether or not the
writes at that index are in range. -/
def handleUpdate.keyIndices : List pb.Field → Nat → Nat → List Nat
  | [], _, _ => []
  | _ :: rest, i, j => (i + j) :: handleUpdate.keyIndices rest (i + 1) (i + j)

/-- The capacity `len(m.NewTuple)-len(kf)` that `handleUpdate` requests for the
SET list, a Go `int`. -/
def handleUpdate.setsCapacity (m : pb.Change) (kf : List String) : Int :=
  (m.NewTuple.length : Int) - (kf.length : Int)

/-- `handleUpdate` from `if len(sets) == 0 || len(keys) == 0` on. -/
def handleUpdate.exec (w : Target) (tr : List Effect) (m : pb.Change)
    (keys sets : List pb.Field) : List Effect × Status :=
  if sets.length = 0 ∨ keys.length = 0 then (tr, Status.ok)
  else
    match handleUpdate.bindSets sets 0 (Params.make (sets.length + keys.length)) with
    | none => (tr, Status.panicked)
    | some (j, ps) =>
      match handleUpdate.bindKeys keys 0 j ps with
      | none => (tr, Status.panicked)
      | some ps1 =>
        let r := w.call tr (Effect.ExecParams
          (sql.Query.UpdateQuery m.Namespace m.Table sets keys) ps1.vals ps1.oids ps1.fmts ps1.fmts)
        (r.1, Status.ofErr r.2)

/-- `handleUpdate`. `make([]*pb.Field, 0, len(m.NewTuple)-len(kf))` panics when
the requested capacity is negative. -/
def handleUpdate (w : Target) (p : PGXSink) (tr : List Effect) (m : pb.Change) :
    List Effect × Status :=
  match m.OldTuple with
  | some old => handleUpdate.exec w tr m old m.NewTuple
  | none =>
    match p.schema m.Namespace m.Table with
    | Except.error e => (tr, Status.failed (Error.Other e))
    | Except.ok kf =>
      if m.NewTuple.length < kf.length then (tr, Status.panicked)
      else
        let ks := handleUpdate.split kf [] [] m.NewTuple
        handleUpdate.exec w tr m ks.1 ks.2

def handleChange (w : Target) (p : PGXSink) (tr : List Effect) (m : pb.Change) :
    List Effect × Status :=
  match m.Op with
  | pb.Op.INSERT => let r := handleInsert w tr m; (r.1, Status.ofErr r.2)
  | pb.Op.UPDATE => handleUpdate w p tr m
  | pb.Op.DELETE => let r := handleDelete w tr m; (r.1, Status.ofErr r.2)

def handleCommit (w : Target) (p : PGXSink) (tr : List Effect) (cp : source.Checkpoint)
    (commitTime : Nat) : List Effect × Option Error :=
  let r1 := w.call tr (Effect.Prepare UpdateSourceSQL UpdateSourceSQL)
  match r1.2 with
  | some e => (r1.1, some e)
  | none =>
    let r2 := w.call r1.1
      (Effect.ExecArgs UpdateSourceSQL p.SourceID (wrapInt64 (cp.LSN : Int)) (pgTz commitTime))
    match r2.2 with
    | some e => (r2.1, some e)
    | none => w.call r2.1 (Effect.Exec "commit")

/-- The sink, the trace and the status after a handler invocation or a run. -/
structure Result where
  sink : PGXSink
  trace : List Effect
  status : Status

/-- The function `Apply` hands to `BaseSink.apply`, invoked once per change. -/
def Apply.handler (w : Target) (p : PGXSink) (tr : List Effect) (change : source.Change) :
    Result :=
  if p.lsn ≥ change.Checkpoint.LSN then ⟨p, tr, Status.ok⟩
  else
    match change.Message with
    | pb.Message.Begin =>
      if p.inTX then ⟨p, tr, Status.failed Error.ErrIncompleteTx⟩
      else
        let r := handleBegin w tr
        ⟨{ p with inTX := true }, r.1, Status.ofErr r.2⟩
    | pb.Message.Change m =>
      if !p.inTX then ⟨p, tr, Status.failed Error.ErrIncompleteTx⟩
      else if p.skip then ⟨p, tr, Status.ok⟩
      else if decode.IsDDL m then
        let r := handleDDL w { p with refresh := true } tr m
        ⟨r.1, r.2.1, Status.ofErr r.2.2⟩
      else
        let r := handleChange w p tr m
        ⟨p, r.1, r.2⟩
    | pb.Message.Commit commitTime =>
      if !p.inTX then ⟨p, tr, Status.failed Error.ErrIncompleteTx⟩
      else
        let r := handleCommit w p tr change.Checkpoint commitTime
        match r.2 with
        | some e => ⟨p, r.1, Status.failed e⟩
        | none =>
          let tr1 := r.1 ++ [Effect.Committed change.Checkpoint]
          let p1 := { p with inTX := false, skip := false }
          if p1.refresh then
            let k := RefreshKeys w p1.schema tr1
            ⟨{ p1 with schema := k.1, refresh := false }, k.2.1, Status.ofErr k.2.2⟩
          else ⟨p1, tr1, Status.ok⟩
    | pb.Message.Unset => ⟨p, tr, Status.ok⟩

/-- Modelled from the spec: the worker of `BaseSink.apply` (`pkg/sink`, not among
the sources) reads the changes one at a time, invokes the handler on each, and
stops at the first one that does not return nil. -/
def Apply (w : Target) : PGXSink → List Effect → List source.Change → Result
  | p, tr, [] => ⟨p, tr, Status.ok⟩
  | p, tr, change :: rest =>
    let r := Apply.handler w p tr change
    match r.status with
    | Status.ok => Apply w r.sink r.trace rest
    | _ => r

/-- The LSNs written to the committed channel, in order. -/
def committedLSNs (tr : List Effect) : List Nat :=
  tr.filterMap (fun e => match e with
    | Effect.Committed cp => some cp.LSN
    | _ => none)

/-- The LSNs of the Commit messages of a stream, in order. -/
def commitLSNs (changes : List source.Change) : List Nat :=
  changes.filterMap (fun c => match c.Message with
    | pb.Message.Commit _ => some c.Checkpoint.LSN
    | _ => none)

/-- A sink as `Setup` leaves it before `findCheckpoint` stores an LSN. -/
def PGXSink.fresh (id : String) (schema : KeyCache) : PGXSink :=
  ⟨id, schema, 0, false, false, false⟩

end sink

/-! ## Scanning the server log (`ScanCheckpointFromLog`) -/

namespace sink

/-- The operators of regular expressions that the two log patterns are built from. -/
inductive Regex where
  /-- a literal string -/
  | lit (s : String)
  /-- `a|b` -/
  | alt (a b : Regex)
  /-- `ab` -/
  | seq (a b : Regex)
  /-- `[...]{min,max}` for the character class `p`, greedy -/
  | cls (p : Char → Bool) (min max : Nat)
  /-- `.*`, greedy; `.` is any character but a line feed -/
  | anyStar
  /-- `c?`, greedy -/
  | opt (c : Char)
  /-- `$`, the end of the text -/
  | eot

/-- All ways `r` matches at the start of `inp`, each given by the input left
over, in the order a backtracking matcher tries them (alternatives left to
right, repetitions longest first). -/
def Regex.run : Regex → List Char → List (List Char)
  | Regex.lit s, inp => if s.toList.isPrefixOf inp then [inp.drop s.toList.length] else []
  | Regex.alt a b, inp => a.run inp ++ b.run inp
  | Regex.seq a b, inp => (a.run inp).flatMap (fun rest => b.run rest)
  | Regex.cls p lo hi, inp =>
    let n := min (inp.takeWhile p).length hi
    (List.range (n + 1 - lo)).map (fun k => inp.drop (n - k))
  | Regex.anyStar, inp =>
    let n := (inp.takeWhile (fun c => c != '\n')).length
    (List.range (n + 1)).map (fun k => inp.drop (n - k))
  | Regex.opt c, inp =>
    match inp with
    | d :: rest => if d = c then [rest, inp] else [inp]
    | [] => [inp]
  | Regex.eot, inp => if inp.isEmpty then [inp] else []

/-- A pattern with one capture group, `pre(grp)post`. -/
structure Pattern where
  pre : Regex
  grp : Regex
  post : Regex

/-- The text captured by the group in the first match that starts at the
beginning of `inp`, if there is one. -/
def Pattern.matchAt (pat : Pattern) (inp : List Char) : Option (List Char) :=
  ((pat.pre.run inp).flatMap (fun r1 =>
    (pat.grp.run r1).flatMap (fun r2 =>
      (pat.post.run r2).map (fun _ => r1.take (r1.length - r2.length))))).head?

/-- The leftmost match over the characters of a line. -/
def Pattern.find (pat : Pattern) : List Char → Option (List Char)
  | [] => pat.matchAt []
  | c :: cs =>
    match pat.matchAt (c :: cs) with
    | some m => some m
    | none => pat.find cs

/-- `FindStringSubmatch(line)` reduced to what the scan reads from it:
`some match[1]` when the pattern matches (`len(match) > 1`), `none` otherwise. -/
def Pattern.FindStringSubmatch (pat : Pattern) (line : String) : Option String :=
  (pat.find line.toList).map String.mk

/-- The class `[0-9A-F]`. -/
def isUpperHex (c : Char) : Bool :=
  ('0' ≤ c && c ≤ '9') || ('A' ≤ c && c ≤ 'F')

/-- `(?:consistent recovery state reached at|redo done at) ([0-9A-F]{2,8}\/[0-9A-F]{2,8})` -/
def LogLSNRegex : Pattern where
  pre := Regex.seq
    (Regex.alt (Regex.lit "consistent recovery state reached at") (Regex.lit "redo done at"))
    (Regex.lit " ")
  grp := Regex.seq (Regex.cls isUpperHex 2 8) (Regex.seq (Regex.lit "/") (Regex.cls isUpperHex 2 8))
  post := Regex.lit ""

/-- `last completed transaction was at log time (.*)\.?$` -/
def LogTxTimeRegex : Pattern where
  pre := Regex.lit "last completed transaction was at log time "
  grp := Regex.anyStar
  post := Regex.seq (Regex.opt '.') Regex.eot

/-- The `for scanner.Scan()` loop of `ScanCheckpointFromLog` over the lines the
scanner yields, carrying `lsn` and `ts`. -/
def ScanCheckpointFromLog.loop : String → String → List String → String × String
  | lsn, ts, [] => (lsn, ts)
  | lsn, ts, line :: rest =>
    match LogLSNRegex.FindStringSubmatch line with
    | some m => ScanCheckpointFromLog.loop m ts rest
    | none =>
      match LogTxTimeRegex.FindStringSubmatch line with
      | some m => ScanCheckpointFromLog.loop lsn m rest
      | none => ScanCheckpointFromLog.loop lsn ts rest

/-- `ScanCheckpointFromLog` on the lines the scanner yields: `(lsn, ts, err)`.
The error is identified by its message, without the wrapped scanner error. -/
def ScanCheckpointFromLog (lines : List String) : String × String × Option String :=
  let r := ScanCheckpointFromLog.loop "" "" lines
  if r.1 = "" ∨ r.2 = "" then ("", "", some "lsn not found in log")
  else (r.1, r.2, none)

/-- The capture of the last line for which `f` gives one. -/
def lastCapture (f : String → Option String) (lines : List String) : Option String :=
  (lines.filterMap f).getLast?

/-- The timestamp a line contributes: the capture of the time pattern, tried
only on a line the LSN pattern does not match. -/
def txTimeOf (line : String) : Option String :=
  match LogLSNRegex.FindStringSubmatch line with
  | some _ => none
  | none => LogTxTimeRegex.FindStringSubmatch line

/-- The server log written by `TestPGXSink_ScanCheckpointFromLog`. -/
def testLog : List String :=
  ["2021-03-01 16:25:02 UTC [2152-1] postgres@postgres FATAL:  the database system is starting up",
   "2021-03-01 16:25:02 UTC [1934-5] LOG:  consistent recovery state reached at AE28/49A509D8",
   "2021-03-01 16:25:02 UTC [1934-6] LOG:  invalid record length at AE28/49B13618: wanted 24, got 0",
   "2021-03-01 16:25:02 UTC [1934-7] LOG:  redo done at AE28/49B135E8",
   "2021-03-01 16:25:02 UTC [1934-8] LOG:  last completed transaction was at log time 2021-03-01 16:17:48.597172+00"]

end sink

/-! ## The capture gateway (`pkg/dblog/gateway.go`) -/

namespace dblog

/-- `pb.CaptureAck`. -/
structure CaptureAck where
  Checkpoint : Nat
  RequeueReason : String
deriving DecidableEq, Repr

/-- The `Type` oneof of `pb.CaptureRequest`; `Unset` is a request whose `Type` is nil. -/
inductive CaptureRequest where
  | Init (uri : String)
  | Ack (ack : CaptureAck)
  | Unset
deriving DecidableEq, Repr

/-- `pb.CaptureMessage`. -/
structure CaptureMessage where
  Checkpoint : Nat
  Change : pb.Change
deriving DecidableEq, Repr

/-- Modelled from the spec: a dump assignment (`pb.DumpInfoResponse`), an opaque
descriptor naming a table and a selection predicate. -/
structure DumpInfo where
  Namespace : String
  Table : String
  Predicate : String
deriving DecidableEq, Repr

/-- What leaves a gateway session, in program order. -/
inductive Output where
  /-- `src.Commit(cp)` -/
  | Commit (cp : source.Checkpoint)
  /-- `src.Requeue(cp)` -/
  | Requeue (cp : source.Checkpoint)
  /-- `server.Send(m)` -/
  | Send (m : CaptureMessage)
  /-- `dumper.LoadDump(lsn, info)` -/
  | LoadDump (lsn : Nat) (info : DumpInfo)
  /-- `acks <- s` -/
  | Ack (s : String)
deriving DecidableEq, Repr

/-- The body of the `for` loop of `acknowledge` once `server.Recv` has
returned `request` without error. -/
def acknowledge.body (request : CaptureRequest) : List Output :=
  match request with
  | CaptureRequest.Ack ack =>
    if ack.Checkpoint ≠ 0 then
      if ack.RequeueReason ≠ "" then [Output.Requeue ⟨ack.Checkpoint, 0⟩]
      else [Output.Commit ⟨ack.Checkpoint, 0⟩]
    else []
  | _ => []

/-- The goroutine of `acknowledge` over the successive results of
`server.Recv`: the calls it makes on the source, and the value it puts on
`done` (`none` while it still waits for the next request). -/
def acknowledge : List (Except String CaptureRequest) → List Output × Option String
  | [] => ([], none)
  | Except.error err :: _ => ([], some err)
  | Except.ok request :: rest =>
    let r := acknowledge rest
    (acknowledge.body request ++ r.1, r.2)

/-- The subscriber stream and the dumper as the session sees them: the error
(if any) a `Send` returns and what `LoadDump` returns, after a given history. -/
structure Peers where
  Send : List Output → CaptureMessage → Option String
  LoadDump : List Output → Nat → DumpInfo → Except String (List pb.Change)

/-- The case the `select` of `capture` takes in one round. -/
inductive Selected where
  /-- `msg, more := <-changes` with `more` -/
  | change (msg : source.Change)
  /-- `<-changes` on the closed channel -/
  | changesClosed
  /-- `info, more := <-dumps` with `more` -/
  | dump (info : DumpInfo)
  /-- `<-dumps` on the closed channel -/
  | dumpsClosed
  /-- `err := <-done` -/
  | done (err : Option String)
deriving DecidableEq, Repr

/-- The local state of `capture`: the variable `lsn` and the calls made so far. -/
structure Session where
  lsn : Nat
  trace : List Output
deriving DecidableEq, Repr

/-- How one round of the loop of `capture` ends. -/
inductive Step where
  /-- the loop goes on -/
  | next (s : Session)
  /-- `capture` returns `err` -/
  | ret (s : Session) (err : Option String)
deriving DecidableEq, Repr

/-- The loop `for _, change := range dump` of `capture`: it returns at the
first `Send` that fails. -/
def capture.sendDump (env : Peers) : List Output → List pb.Change → List Output × Option String
  | tr, [] => (tr, none)
  | tr, change :: rest =>
    match env.Send tr ⟨0, change⟩ with
    | some err => (tr ++ [Output.Send ⟨0, change⟩], some err)
    | none => capture.sendDump env (tr ++ [Output.Send ⟨0, change⟩]) rest

/-- One round of the `for`/`select` loop of `capture`. -/
def capture.step (env : Peers) (s : Session) : Selected → Step
  | Selected.change msg =>
    match msg.Message with
    | pb.Message.Change change =>
      match env.Send s.trace ⟨msg.Checkpoint.LSN, change⟩ with
      | some err => Step.ret ⟨s.lsn, s.trace ++ [Output.Send ⟨msg.Checkpoint.LSN, change⟩]⟩ (some err)
      | none => Step.next ⟨msg.Checkpoint.LSN, s.trace ++ [Output.Send ⟨msg.Checkpoint.LSN, change⟩]⟩
    | _ => Step.next ⟨msg.Checkpoint.LSN, s.trace ++ [Output.Commit ⟨msg.Checkpoint.LSN, 0⟩]⟩
  | Selected.changesClosed => Step.ret s none
  | Selected.dump info =>
    let tr1 := s.trace ++ [Output.LoadDump s.lsn info]
    match env.LoadDump s.trace s.lsn info with
    | Except.ok dump =>
      let r := capture.sendDump env tr1 dump
      match r.2 with
      | some err => Step.ret ⟨s.lsn, r.1⟩ (some err)
      | none => Step.next ⟨s.lsn, r.1 ++ [Output.Ack ""]⟩
    | Except.error err => Step.next ⟨s.lsn, tr1 ++ [Output.Ack err]⟩
  | Selected.dumpsClosed => Step.ret s none
  | Selected.done err => Step.ret s err

/-- The loop of `capture` over the cases its `select` takes, from
`lsn := uint64(0)`; `Step.next` when the cases given are used up. -/
def capture.loop (env : Peers) : Session → List Selected → Step
  | s, [] => Step.next s
  | s, ev :: rest =>
    match capture.step env s ev with
    | Step.next s1 => capture.loop env s1 rest
    | Step.ret s1 err => Step.ret s1 err

/-- The values written to the `acks` channel, in order. -/
def acksWritten (tr : List Output) : List String :=
  tr.filterMap (fun o => match o with
    | Output.Ack s => some s
    | _ => none)

end dblog

/-! ## Data for the worked examples -/

namespace sink

/-- Whether an effect is a statement sent to the target database. -/
def Effect.isStatement : Effect → Bool
  | Effect.Exec _ => true
  | Effect.Prepare _ _ => true
  | Effect.ExecArgs _ _ _ _ => true
  | Effect.ExecParams _ _ _ _ _ => true
  | Effect.RefreshKeys => false
  | Effect.Committed _ => false

/-- The change at position `lsn` carrying message `m`. -/
def msgAt (lsn : Nat) (m : pb.Message) : source.Change :=
  ⟨⟨lsn, 0⟩, m⟩

/-- The key cache after the first transaction of `TestPGXSink`: table
`public.t3` with primary key `(f1, f2)`. -/
def t3Keys : KeyCache :=
  fun ns table =>
    if ns = "public" ∧ table = "t3" then Except.ok ["f1", "f2"]
    else Except.error "table not known"

/-- A target on which every call succeeds and whose catalog holds `public.t3`. -/
def Target.accepting : Target :=
  ⟨fun _ _ => none, fun _ => t3Keys⟩

/-- A sink on that cache, before any checkpoint is stored. -/
def sink0 : PGXSink :=
  PGXSink.fresh "repl_test" t3Keys

/-- The insert of row `(1, 1, A)` into `public.t3` from `TestPGXSink`. -/
def insertT3 : pb.Change :=
  ⟨pb.Op.INSERT, "public", "t3",
    [⟨"f1", 23, "\x00\x00\x00\x01"⟩, ⟨"f2", 23, "\x00\x00\x00\x01"⟩, ⟨"f3", 25, "A"⟩], none⟩

/-- The sink after `findCheckpoint` has resumed at the stored checkpoint 10. -/
def resumed10 : PGXSink :=
  (findCheckpoint sink0 ⟨10, 0⟩).1

/-- A sink inside a transaction. -/
def sinkInTx : PGXSink :=
  { sink0 with inTX := true }

/-- A target that rejects the statement text `bad` and accepts every other call. -/
def Target.rejecting (bad : String) : Target :=
  ⟨fun _ e => if e = Effect.Exec bad then some "syntax error" else none, fun _ => t3Keys⟩

/-- A DDL change carrying the given fields. -/
def ddlChange (fields : List pb.Field) : pb.Change :=
  ⟨pb.Op.INSERT, decode.ExtensionNamespace, decode.ExtensionDDLLogs, fields, none⟩

/-- An update of `public.t3` with the given new and old tuples. -/
def updateT3 (new : List pb.Field) (old : Option (List pb.Field)) : pb.Change :=
  ⟨pb.Op.UPDATE, "public", "t3", new, old⟩

def f1 : pb.Field := ⟨"f1", 23, "\x00\x00\x00\x01"⟩

def f2 : pb.Field := ⟨"f2", 23, "\x00\x00\x00\x01"⟩

def f3 : pb.Field := ⟨"f3", 25, "B"⟩

/-- A transaction as a stream: its Begin, its Changes and its Commit, each with
its checkpoint. -/
def txStream (cpB : source.Checkpoint) (changes : List (source.Checkpoint × pb.Change))
    (cpC : source.Checkpoint) (commitTime : Nat) : List source.Change :=
  ⟨cpB, pb.Message.Begin⟩ :: (changes.map (fun x => ⟨x.1, pb.Message.Change x.2⟩) ++
    [⟨cpC, pb.Message.Commit commitTime⟩])

/-- The DDL change of the select-into transaction of `TestPGXSink`. -/
def selectIntoDDL : pb.Change :=
  ddlChange [⟨"query", 0, "select * into t4 from t3"⟩, ⟨"tags", 0, "\x7bSELECT\x7d"⟩]

/-- A DDL change with two `tags` fields, the first of which names `SELECT`. -/
def twoTagsDDL : pb.Change :=
  ddlChange [⟨"query", 0, "select * into t4 from t3"⟩, ⟨"tags", 0, "\x7bSELECT\x7d"⟩,
    ⟨"tags", 0, "\x7b\x7d"⟩]

/-- The changes of a transaction that creates a table and inserts a row. -/
def createT3Tx : List (source.Checkpoint × pb.Change) :=
  [(⟨2, 0⟩, ddlChange [⟨"query", 0,
      "create table t3 (f1 int, f2 int, f3 text, primary key(f1, f2))"⟩]),
   (⟨3, 0⟩, insertT3)]

/-- A list of effects that extends `tr` by database statements only. -/
def Extends (tr tr1 : List Effect) : Prop :=
  ∃ ext, tr1 = tr ++ ext ∧ ∀ e ∈ ext, e.isStatement = true

end sink

namespace dblog

/-- Healthy peers: every `Send` succeeds and the dumper knows table `t3` only. -/
def Peers.healthy : Peers :=
  ⟨fun _ _ => none,
   fun _ _ info => if info.Table = "t3" then Except.ok [sink.insertT3, sink.insertT3]
     else Except.error "no such table"⟩

/-- Peers whose subscriber stream is broken: every `Send` fails. -/
def Peers.brokenStream : Peers :=
  ⟨fun _ _ => some "broken pipe", fun _ _ _ => Except.ok [sink.insertT3, sink.insertT3]⟩

/-- A dump assignment for table `public.t3`. -/
def dumpT3 : DumpInfo :=
  ⟨"public", "t3", "true"⟩

/-- The message that carries a dump row: `CaptureMessage` with checkpoint 0. -/
def dumpRow (change : pb.Change) : Output :=
  Output.Send ⟨0, change⟩

end dblog

namespace sink

/-- The least number of characters a match of `r` consumes. -/
def Regex.minLen : Regex → Nat
  | Regex.lit s => s.toList.length
  | Regex.alt a b => min a.minLen b.minLen
  | Regex.seq a b => a.minLen + b.minLen
  | Regex.cls _ lo _ => lo
  | Regex.anyStar => 0
  | Regex.opt _ => 0
  | Regex.eot => 0

/-- A log line that both patterns match. -/
def bothLine : String :=
  "LOG:  redo done at AE28/49B135E8, last completed transaction was at log time 2021-03-01 16:17:48.597172+00"

/-! # Theorems -/

/-! ## Frame lemmas: what each handler appends to the trace -/

theorem committedLSNs_append (a b : List Effect) :
    committedLSNs (a ++ b) = committedLSNs a ++ committedLSNs b := by
  simp [committedLSNs, List.filterMap_append]

theorem committedLSNs_statements (ext : List Effect) (h : ∀ e ∈ ext, e.isStatement = true) :
    committedLSNs ext = [] := by
  induction ext with
  | nil => rfl
  | cons e rest ih =>
    have he := h e (List.mem_cons_self _ _)
    have hr := ih (fun x hx => h x (List.mem_cons_of_mem _ hx))
    cases e <;> simp_all [committedLSNs, Effect.isStatement]

theorem Extends.refl (tr : List Effect) : Extends tr tr :=
  ⟨[], by simp, by simp⟩

theorem Extends.trans {a b c : List Effect} (h1 : Extends a b) (h2 : Extends b c) :
    Extends a c := by
  obtain ⟨e1, rfl, g1⟩ := h1
  obtain ⟨e2, rfl, g2⟩ := h2
  refine ⟨e1 ++ e2, by simp, ?_⟩
  intro e he
  rcases List.mem_append.mp he with he | he
  · exact g1 e he
  · exact g2 e he

theorem Extends.committedLSNs {tr tr1 : List Effect} (h : Extends tr tr1) :
    committedLSNs tr1 = committedLSNs tr := by
  obtain ⟨ext, rfl, g⟩ := h
  rw [committedLSNs_append, committedLSNs_statements ext g, List.append_nil]

theorem Extends.call (w : Target) (tr : List Effect) (e : Effect) (he : e.isStatement = true) :
    Extends tr (w.call tr e).1 :=
  ⟨[e], rfl, by simpa using he⟩

theorem handleDDL_loop_frame (w : Target) (fields : List pb.Field) :
    ∀ (p : PGXSink) (tr : List Effect) (err : Option Error),
      (handleDDL.loop w p tr err fields).1.lsn = p.lsn ∧
      (handleDDL.loop w p tr err fields).1.inTX = p.inTX ∧
      (handleDDL.loop w p tr err fields).1.refresh = p.refresh ∧
      Extends tr (handleDDL.loop w p tr err fields).2.1 := by
  induction fields with
  | nil => intro p tr err; exact ⟨rfl, rfl, rfl, Extends.refl tr⟩
  | cons f rest ih =>
    intro p tr err
    unfold handleDDL.loop
    by_cases hq : f.Name = "query"
    · rw [if_pos hq]
      obtain ⟨h1, h2, h3, h4⟩ :=
        ih p (w.call tr (Effect.Exec f.Datum)).1 (w.call tr (Effect.Exec f.Datum)).2
      exact ⟨h1, h2, h3, (Extends.call w tr (Effect.Exec f.Datum) rfl).trans h4⟩
    · rw [if_neg hq]
      by_cases ht : f.Name = "tags"
      · rw [if_pos ht]
        exact ih _ tr err
      · rw [if_neg ht]
        exact ih p tr err

theorem handleUpdate_exec_frame (w : Target) (tr : List Effect) (m : pb.Change)
    (keys sets : List pb.Field) : Extends tr (handleUpdate.exec w tr m keys sets).1 := by
  unfold handleUpdate.exec
  split
  · exact Extends.refl tr
  · split
    · exact Extends.refl tr
    · split
      · exact Extends.refl tr
      · exact Extends.call w tr (Effect.ExecParams _ _ _ _ _) rfl

theorem handleChange_frame (w : Target) (p : PGXSink) (tr : List Effect) (m : pb.Change) :
    Extends tr (handleChange w p tr m).1 := by
  unfold handleChange
  split
  · exact Extends.call w tr (Effect.ExecParams _ _ _ _ _) rfl
  · unfold handleUpdate
    split
    · exact handleUpdate_exec_frame w tr m _ _
    · split
      · exact Extends.refl tr
      · split
        · exact Extends.refl tr
        · exact handleUpdate_exec_frame w tr m _ _
  · exact Extends.call w tr (Effect.ExecParams _ _ _ _ _) rfl

theorem handleCommit_frame (w : Target) (p : PGXSink) (tr : List Effect)
    (cp : source.Checkpoint) (t : Nat) : Extends tr (handleCommit w p tr cp t).1 := by
  unfold handleCommit
  have h1 := Extends.call w tr (Effect.Prepare UpdateSourceSQL UpdateSourceSQL) rfl
  dsimp only
  split
  · exact h1
  · have h2 := Extends.call w (w.call tr (Effect.Prepare UpdateSourceSQL UpdateSourceSQL)).1
      (Effect.ExecArgs UpdateSourceSQL p.SourceID (wrapInt64 (cp.LSN : Int)) (pgTz t)) rfl
    split
    · exact h1.trans h2
    · exact (h1.trans h2).trans (Extends.call w _ (Effect.Exec _) rfl)

theorem committedLSNs_RefreshKeys (w : Target) (schema : KeyCache) (tr : List Effect) :
    committedLSNs (RefreshKeys w schema tr).2.1 = committedLSNs tr := by
  have h : committedLSNs (w.call tr Effect.RefreshKeys).1 = committedLSNs tr := by
    simp [Target.call, committedLSNs, List.filterMap_append]
  unfold RefreshKeys
  dsimp only
  split <;> exact h

/-- One handler invocation keeps `lsn`, and writes to the committed channel at
most the checkpoint of a Commit message whose LSN is above `lsn`. -/
theorem handler_committed (w : Target) (p : PGXSink) (tr : List Effect) (change : source.Change) :
    (Apply.handler w p tr change).sink.lsn = p.lsn ∧
    ∃ l, committedLSNs (Apply.handler w p tr change).trace = committedLSNs tr ++ l ∧
      l.Sublist (commitLSNs [change]) ∧ ∀ x ∈ l, p.lsn < x := by
  unfold Apply.handler
  by_cases hd : p.lsn ≥ change.Checkpoint.LSN
  · rw [if_pos hd]
    exact ⟨rfl, [], by simp, by simp, by simp⟩
  · rw [if_neg hd]
    have hlt : p.lsn < change.Checkpoint.LSN := by omega
    cases hm : change.Message with
    | Begin =>
      simp only
      split
      · exact ⟨rfl, [], by simp, by simp, by simp⟩
      · refine ⟨rfl, [], ?_, by simp, by simp⟩
        simpa [handleBegin] using (Extends.call w tr (Effect.Exec "begin") rfl).committedLSNs
    | Change m =>
      simp only
      split
      · exact ⟨rfl, [], by simp, by simp, by simp⟩
      · split
        · exact ⟨rfl, [], by simp, by simp, by simp⟩
        · split
          · have h := handleDDL_loop_frame w m.NewTuple { p with refresh := true } tr none
            refine ⟨?_, [], ?_, by simp, by simp⟩
            · simpa [handleDDL] using h.1
            · simpa [handleDDL] using h.2.2.2.committedLSNs
          · refine ⟨rfl, [], ?_, by simp, by simp⟩
            simpa using (handleChange_frame w p tr m).committedLSNs
    | Commit t =>
      simp only
      have hc := (handleCommit_frame w p tr change.Checkpoint t).committedLSNs
      split
      · exact ⟨rfl, [], by simp, by simp, by simp⟩
      · split
        · refine ⟨rfl, [], ?_, by simp, by simp⟩
          simpa using hc
        · have hl : commitLSNs [change] = [change.Checkpoint.LSN] := by
            simp [commitLSNs, hm]
          split
          · refine ⟨rfl, [change.Checkpoint.LSN], ?_, by simp [hl], by simpa using hlt⟩
            rw [committedLSNs_RefreshKeys, committedLSNs_append, hc]
            simp [committedLSNs]
          · refine ⟨rfl, [change.Checkpoint.LSN], ?_, by simp [hl], by simpa using hlt⟩
            rw [committedLSNs_append, hc]
            simp [committedLSNs]
    | Unset =>
      exact ⟨rfl, [], by simp, by simp, by simp⟩

theorem commitLSNs_cons (c : source.Change) (cs : List source.Change) :
    commitLSNs (c :: cs) = commitLSNs [c] ++ commitLSNs cs := by
  simp [commitLSNs, List.filterMap_cons]
  split <;> simp

/-- A whole run keeps `lsn`, and what it writes to the committed channel is a
sublist of the LSNs of the Commit messages it was fed, each above `lsn`. -/
theorem Apply_committed (w : Target) (changes : List source.Change) :
    ∀ (p : PGXSink) (tr : List Effect),
      (Apply w p tr changes).sink.lsn = p.lsn ∧
      ∃ l, committedLSNs (Apply w p tr changes).trace = committedLSNs tr ++ l ∧
        l.Sublist (commitLSNs changes) ∧ ∀ x ∈ l, p.lsn < x := by
  induction changes with
  | nil => intro p tr; exact ⟨rfl, [], by simp [Apply], by simp, by simp⟩
  | cons c cs ih =>
    intro p tr
    obtain ⟨h1, l1, h2, h3, h4⟩ := handler_committed w p tr c
    rw [commitLSNs_cons]
    unfold Apply
    simp only
    split
    · obtain ⟨g1, l2, g2, g3, g4⟩ := ih (Apply.handler w p tr c).sink (Apply.handler w p tr c).trace
      refine ⟨g1.trans h1, l1 ++ l2, ?_, List.Sublist.append h3 g3, ?_⟩
      · rw [g2, h2, List.append_assoc]
      · intro x hx
        rcases List.mem_append.mp hx with hx | hx
        · exact h4 x hx
        · have := g4 x hx
          omega
    · refine ⟨h1, l1, h2, ?_, h4⟩
      exact h3.trans (List.sublist_append_left _ _)

/-! ## C1: SINK-MONO -/

/-- C1, the claim refuted: on a target that accepts every statement, a sink
with internal `lsn = 0` fed the two complete transactions `Begin@5 Commit@6`
and `Begin@3 Commit@4` writes the checkpoints 6 and then 4 to the committed
channel, which is not an increasing sequence. -/
theorem sink_mono_counterexample :
    committedLSNs (Apply Target.accepting sink0 []
      [msgAt 5 pb.Message.Begin, msgAt 6 (pb.Message.Commit 0),
       msgAt 3 pb.Message.Begin, msgAt 4 (pb.Message.Commit 0)]).trace = [6, 4] ∧
    ¬ List.Pairwise (fun a b => a < b) (committedLSNs (Apply Target.accepting sink0 []
      [msgAt 5 pb.Message.Begin, msgAt 6 (pb.Message.Commit 0),
       msgAt 3 pb.Message.Begin, msgAt 4 (pb.Message.Commit 0)]).trace) := by
  decide

/-- C1 (SINK-MONO), amended: for every target, every starting sink and every
input stream whose Commit messages carry strictly increasing LSNs, the
checkpoints written to the committed channel by one run of `Apply` have
strictly increasing LSNs, each above the internal `lsn` the run started with. -/
theorem sink_mono_of_increasing_commits (w : Target) (p : PGXSink)
    (changes : List source.Change)
    (h : List.Pairwise (fun a b => a < b) (commitLSNs changes)) :
    List.Pairwise (fun a b => a < b) (committedLSNs (Apply w p [] changes).trace) ∧
    ∀ x ∈ committedLSNs (Apply w p [] changes).trace, p.lsn < x := by
  obtain ⟨_, l, h2, h3, h4⟩ := Apply_committed w changes p []
  have hl : committedLSNs (Apply w p [] changes).trace = l := by
    simpa [committedLSNs] using h2
  rw [hl]
  exact ⟨h.sublist h3, h4⟩

/-- C1, the amended claim at a concrete stream: two transactions in LSN order. -/
theorem sink_mono_of_increasing_commits_witness :
    List.Pairwise (fun a b => a < b) (commitLSNs
      [msgAt 1 pb.Message.Begin, msgAt 2 (pb.Message.Change insertT3), msgAt 3 (pb.Message.Commit 0),
       msgAt 4 pb.Message.Begin, msgAt 5 (pb.Message.Commit 0)]) ∧
    (List.Pairwise (fun a b => a < b) (committedLSNs (Apply Target.accepting sink0 []
      [msgAt 1 pb.Message.Begin, msgAt 2 (pb.Message.Change insertT3), msgAt 3 (pb.Message.Commit 0),
       msgAt 4 pb.Message.Begin, msgAt 5 (pb.Message.Commit 0)]).trace) ∧
    ∀ x ∈ committedLSNs (Apply Target.accepting sink0 []
      [msgAt 1 pb.Message.Begin, msgAt 2 (pb.Message.Change insertT3), msgAt 3 (pb.Message.Commit 0),
       msgAt 4 pb.Message.Begin, msgAt 5 (pb.Message.Commit 0)]).trace, sink0.lsn < x) :=
  ⟨by decide, sink_mono_of_increasing_commits _ _ _ (by decide)⟩

/-! ## C2: RESUME-IDEMPOTENT -/

theorem handler_dropped (w : Target) (p : PGXSink) (tr : List Effect) (change : source.Change)
    (h : change.Checkpoint.LSN ≤ p.lsn) :
    Apply.handler w p tr change = ⟨p, tr, Status.ok⟩ := by
  unfold Apply.handler
  rw [if_pos h]

theorem Apply_dropped (w : Target) (p : PGXSink) (tr : List Effect)
    (old rest : List source.Change) (h : ∀ c ∈ old, c.Checkpoint.LSN ≤ p.lsn) :
    Apply w p tr (old ++ rest) = Apply w p tr rest := by
  induction old with
  | nil => rfl
  | cons c cs ih =>
    have hc := handler_dropped w p tr c (h c (List.mem_cons_self _ _))
    rw [List.cons_append, Apply, hc]
    exact ih (fun x hx => h x (List.mem_cons_of_mem _ hx))

/-- C2, the claim refuted: after resuming at the stored checkpoint 10, a stream
that replays the applied transaction `Begin@8 Change@9 Commit@10` and then
brings the new transaction `Begin@11 Change@12 Commit@13` is not applied: the
replayed Commit at LSN 10 passes the drop filter, the run stops there with
`ErrIncompleteTx`, and no statement reaches the target, although the new
transaction alone would have been committed. -/
theorem resume_idempotent_counterexample :
    (Apply Target.accepting resumed10 []
      [msgAt 8 pb.Message.Begin, msgAt 9 (pb.Message.Change insertT3),
       msgAt 10 (pb.Message.Commit 0),
       msgAt 11 pb.Message.Begin, msgAt 12 (pb.Message.Change insertT3),
       msgAt 13 (pb.Message.Commit 0)]).status = Status.failed Error.ErrIncompleteTx ∧
    (Apply Target.accepting resumed10 []
      [msgAt 8 pb.Message.Begin, msgAt 9 (pb.Message.Change insertT3),
       msgAt 10 (pb.Message.Commit 0),
       msgAt 11 pb.Message.Begin, msgAt 12 (pb.Message.Change insertT3),
       msgAt 13 (pb.Message.Commit 0)]).trace = [] ∧
    committedLSNs (Apply Target.accepting resumed10 []
      [msgAt 11 pb.Message.Begin, msgAt 12 (pb.Message.Change insertT3),
       msgAt 13 (pb.Message.Commit 0)]).trace = [13] := by
  decide

/-- C2 (RESUME-IDEMPOTENT), amended: after `findCheckpoint` has resumed at a
stored checkpoint `L > 0`, a stream that begins with replayed messages whose
LSNs are all below `L` is run exactly as the rest of the stream alone (same
statements, same committed checkpoints, same final sink, same error or none);
a message at LSN `L` is not dropped: a replayed Commit at LSN `L` that reaches
the idle sink is answered with `ErrIncompleteTx` and no statement. -/
theorem resume_drops_below_checkpoint (w : Target) (p : PGXSink) (tr : List Effect)
    (L : Nat) (time : Int) (old rest : List source.Change)
    (hL : 0 < L) (hold : ∀ c ∈ old, c.Checkpoint.LSN < L) :
    Apply w (findCheckpoint p ⟨L, time⟩).1 tr (old ++ rest) =
      Apply w (findCheckpoint p ⟨L, time⟩).1 tr rest ∧
    (p.inTX = false → ∀ (at_time : Int) (t : Nat),
      (Apply.handler w (findCheckpoint p ⟨L, time⟩).1 tr
          ⟨⟨L, at_time⟩, pb.Message.Commit t⟩).status = Status.failed Error.ErrIncompleteTx ∧
      (Apply.handler w (findCheckpoint p ⟨L, time⟩).1 tr
          ⟨⟨L, at_time⟩, pb.Message.Commit t⟩).trace = tr) := by
  have hf : (findCheckpoint p ⟨L, time⟩).1 = { p with lsn := L - 1 } := by
    unfold findCheckpoint
    rw [if_pos (by simpa using Nat.pos_iff_ne_zero.mp hL)]
  rw [hf]
  constructor
  · apply Apply_dropped
    intro c hc
    have := hold c hc
    show c.Checkpoint.LSN ≤ L - 1
    omega
  · intro hin at_time t
    unfold Apply.handler
    have hnd : ¬ (L - 1 ≥ L) := by omega
    simp [hnd, hin]

/-- C2, the amended claim at the stored checkpoint 10, with the replayed
messages `Begin@8 Change@9` and one new transaction. -/
theorem resume_drops_below_checkpoint_witness :
    (0 < 10 ∧ ∀ c ∈ [msgAt 8 pb.Message.Begin, msgAt 9 (pb.Message.Change insertT3)],
      c.Checkpoint.LSN < 10) ∧
    (Apply Target.accepting (findCheckpoint sink0 ⟨10, 0⟩).1 []
        ([msgAt 8 pb.Message.Begin, msgAt 9 (pb.Message.Change insertT3)] ++
         [msgAt 11 pb.Message.Begin, msgAt 12 (pb.Message.Change insertT3),
          msgAt 13 (pb.Message.Commit 0)]) =
      Apply Target.accepting (findCheckpoint sink0 ⟨10, 0⟩).1 []
        [msgAt 11 pb.Message.Begin, msgAt 12 (pb.Message.Change insertT3),
         msgAt 13 (pb.Message.Commit 0)] ∧
    (sink0.inTX = false → ∀ (at_time : Int) (t : Nat),
      (Apply.handler Target.accepting (findCheckpoint sink0 ⟨10, 0⟩).1 []
          ⟨⟨10, at_time⟩, pb.Message.Commit t⟩).status = Status.failed Error.ErrIncompleteTx ∧
      (Apply.handler Target.accepting (findCheckpoint sink0 ⟨10, 0⟩).1 []
          ⟨⟨10, at_time⟩, pb.Message.Commit t⟩).trace = [])) :=
  ⟨⟨by decide, by decide⟩,
    resume_drops_below_checkpoint Target.accepting sink0 [] 10 0 _ _ (by decide) (by decide)⟩

/-! ## C3: database errors of a Change -/

/-- `handleDDL` returns nil whatever the statements it issued returned. -/
theorem handleDDL_returns_nil (w : Target) (p : PGXSink) (tr : List Effect) (m : pb.Change) :
    (handleDDL w p tr m).2.2 = none :=
  rfl

/-- C3, the failing input: inside a transaction, a DDL change whose `query` the
target rejects with an error is handled with that statement issued and the
handler returning nil. -/
theorem handleDDL_swallows_error :
    (Target.rejecting "create tabel t3 (f1 int)").reply [Effect.Exec "begin"]
        (Effect.Exec "create tabel t3 (f1 int)") = some "syntax error" ∧
    (Apply.handler (Target.rejecting "create tabel t3 (f1 int)") sinkInTx [Effect.Exec "begin"]
        (msgAt 2 (pb.Message.Change (ddlChange [⟨"query", 25, "create tabel t3 (f1 int)"⟩])))).trace
      = [Effect.Exec "begin", Effect.Exec "create tabel t3 (f1 int)"] ∧
    (Apply.handler (Target.rejecting "create tabel t3 (f1 int)") sinkInTx [Effect.Exec "begin"]
        (msgAt 2 (pb.Message.Change (ddlChange [⟨"query", 25, "create tabel t3 (f1 int)"⟩])))).status
      = Status.ok := by
  decide

/-- An INSERT, UPDATE or DELETE that issues a statement which the target
answers with an error ends with that error. -/
theorem handleChange_surfaces_error (w : Target) (p : PGXSink) (tr : List Effect)
    (m : pb.Change) (e : Effect) (msg : String)
    (hissued : (handleChange w p tr m).1 = tr ++ [e]) (herr : w.reply tr e = some msg) :
    (handleChange w p tr m).2 = Status.failed (Error.Other msg) := by
  have key : ∀ (e1 : Effect), (w.call tr e1).1 = tr ++ [e] →
      Status.ofErr (w.call tr e1).2 = Status.failed (Error.Other msg) := by
    intro e1 h1
    have : e1 = e := by simpa [Target.call] using h1
    subst this
    simp [Target.call, herr, Status.ofErr]
  have nokey : ∀ (s : Status), (tr : List Effect) = tr ++ [e] → s = Status.failed (Error.Other msg) := by
    intro s h
    have := congrArg List.length h
    simp at this
  have hexec : ∀ keys sets, (handleUpdate.exec w tr m keys sets).1 = tr ++ [e] →
      (handleUpdate.exec w tr m keys sets).2 = Status.failed (Error.Other msg) := by
    intro keys sets
    unfold handleUpdate.exec
    split
    · exact nokey _
    · split
      · exact nokey _
      · split
        · exact nokey _
        · exact key _
  revert hissued
  unfold handleChange
  split
  · exact key _
  · unfold handleUpdate
    split
    · exact hexec _ _
    · split
      · exact nokey _
      · split
        · exact nokey _
        · exact hexec _ _
  · exact key _

/-! ## C4: the key predicate and the SET list of an UPDATE -/

theorem handleUpdate_split_acc (kf : List String) (fields : List pb.Field) :
    ∀ keys sets : List pb.Field,
      handleUpdate.split kf keys sets fields =
        (keys ++ fields.filter (fun f => decide (f.Name ∈ kf)),
         sets ++ fields.filter (fun f => !decide (f.Name ∈ kf))) := by
  induction fields with
  | nil => intro keys sets; simp [handleUpdate.split]
  | cons f rest ih =>
    intro keys sets
    unfold handleUpdate.split
    by_cases h : f.Name ∈ kf
    · rw [if_pos h, ih]
      simp [h]
    · rw [if_neg h, ih]
      simp [h]

/-- The split of `NewTuple` by a cached key list: the key predicate is the
fields whose name is in the list, the SET list the other fields, both in
`NewTuple` order. -/
theorem handleUpdate_split_eq (kf : List String) (fields : List pb.Field) :
    handleUpdate.split kf [] [] fields =
      (fields.filter (fun f => decide (f.Name ∈ kf)),
       fields.filter (fun f => !decide (f.Name ∈ kf))) := by
  rw [handleUpdate_split_acc]
  simp

/-- C4, the failing inputs: an UPDATE of `public.t3` with a non-null OldTuple
of three fields and a NewTuple of three fields, and an UPDATE with a null
OldTuple whose NewTuple `(f1)` is shorter than the cached key `(f1, f2)`, each
stop with a run-time panic and no statement issued. -/
theorem handleUpdate_panics :
    handleUpdate Target.accepting sink0 [] (updateT3 [f1, f2, f3] (some [f1, f2, f3]))
      = ([], Status.panicked) ∧
    handleUpdate Target.accepting sink0 [] (updateT3 [f1] none) = ([], Status.panicked) := by
  decide

/-! ## `handleUpdate`: binding the parameters -/

theorem set_at_boundary {α : Type} (pre : List α) (z d : α) (m : Nat) :
    (pre ++ List.replicate (m + 1) z).set pre.length d = (pre ++ [d]) ++ List.replicate m z := by
  induction pre with
  | nil => simp [List.replicate_succ]
  | cons x xs ih => simp [ih]

theorem Params.bind_length (ps ps1 : Params) (j : Nat) (f : pb.Field)
    (h : ps.bind j f = some ps1) : ps1.vals.length = ps.vals.length := by
  unfold Params.bind at h
  split at h
  · simp only [Option.some.injEq] at h
    subst h
    simp
  · cases h

theorem Params.bind_none (ps : Params) (j : Nat) (f : pb.Field) (h : ps.vals.length ≤ j) :
    ps.bind j f = none := by
  unfold Params.bind
  rw [if_neg (by omega)]

/-- The SET loop fills the slots from `j` on with the SET fields, in order. -/
theorem bindSets_eq (sets : List pb.Field) :
    ∀ (v : List String) (o f : List Nat) (m : Nat),
      v.length = o.length → v.length = f.length →
      handleUpdate.bindSets sets v.length
          ⟨v ++ List.replicate (sets.length + m) "", o ++ List.replicate (sets.length + m) 0,
           f ++ List.replicate (sets.length + m) 0⟩ =
        some (v.length + sets.length,
          ⟨v ++ sets.map (fun x => x.Datum) ++ List.replicate m "",
           o ++ sets.map (fun x => x.Oid) ++ List.replicate m 0,
           f ++ sets.map (fun _ => 1) ++ List.replicate m 0⟩) := by
  induction sets with
  | nil => intro v o f m _ _; simp [handleUpdate.bindSets]
  | cons x rest ih =>
    intro v o f m ho hf
    have hlen : rest.length + 1 + m = (rest.length + m) + 1 := by omega
    rw [handleUpdate.bindSets]
    simp only [List.length_cons, hlen]
    have hb : Params.bind
        ⟨v ++ List.replicate (rest.length + m + 1) "", o ++ List.replicate (rest.length + m + 1) 0,
         f ++ List.replicate (rest.length + m + 1) 0⟩ v.length x =
        some ⟨(v ++ [x.Datum]) ++ List.replicate (rest.length + m) "",
              (o ++ [x.Oid]) ++ List.replicate (rest.length + m) 0,
              (f ++ [1]) ++ List.replicate (rest.length + m) 0⟩ := by
      unfold Params.bind
      rw [if_pos (by simp)]
      simp only
      rw [set_at_boundary v "" x.Datum]
      conv => lhs; rw [ho, set_at_boundary o 0 x.Oid, ← ho, hf, set_at_boundary f 0 1]
    rw [hb]
    simp only
    have := ih (v ++ [x.Datum]) (o ++ [x.Oid]) (f ++ [1]) m (by simp [ho]) (by simp [hf])
    simp only [List.length_append, List.length_singleton] at this
    rw [this]
    simp [Nat.add_assoc, Nat.add_comm 1]

/-- With the index advanced by `j = i + j`, a key loop that starts with
`i ≥ 2` runs out of range whenever the slices hold at most `j + 2 * len(keys)`
slots. -/
theorem bindKeys_none (keys : List pb.Field) :
    ∀ (i j : Nat) (ps : Params), keys ≠ [] → 2 ≤ i → ps.vals.length ≤ j + 2 * keys.length →
      handleUpdate.bindKeys keys i j ps = none := by
  induction keys with
  | nil => intro i j ps h; exact absurd rfl h
  | cons x rest ih =>
    intro i j ps _ hi hlen
    rw [handleUpdate.bindKeys]
    cases hb : ps.bind (i + j) x with
    | none => rfl
    | some ps1 =>
      simp only
      have hl := Params.bind_length ps ps1 _ x hb
      have hlt : i + j < ps.vals.length := by
        by_contra hge
        rw [Params.bind_none ps _ x (by omega)] at hb
        cases hb
      cases rest with
      | nil => simp only [List.length_singleton] at hlen; omega
      | cons y ys =>
        apply ih (i + 1) (i + j) ps1 (by simp) (by omega)
        rw [hl]
        simp only [List.length_cons] at hlen ⊢
        omega

/-- An UPDATE with a non-empty SET list and at least three key fields ends in
a run-time panic, with no statement issued. -/
theorem handleUpdate_exec_panics (w : Target) (tr : List Effect) (m : pb.Change)
    (keys sets : List pb.Field) (hs : sets ≠ []) (hk : 3 ≤ keys.length) :
    handleUpdate.exec w tr m keys sets = (tr, Status.panicked) := by
  unfold handleUpdate.exec
  have hs0 : ¬ (sets.length = 0 ∨ keys.length = 0) := by
    have : sets.length ≠ 0 := by simpa using hs
    omega
  rw [if_neg hs0]
  have hb := bindSets_eq sets [] [] [] keys.length rfl rfl
  simp only [List.length_nil, List.nil_append, Nat.zero_add] at hb
  unfold Params.make
  rw [hb]
  simp only
  match keys, hk with
  | a :: b :: c :: rest, _ =>
    rw [handleUpdate.bindKeys]
    cases h1 : Params.bind _ (0 + sets.length) a with
    | none => rfl
    | some ps1 =>
      simp only
      have l1 := Params.bind_length _ ps1 _ a h1
      rw [handleUpdate.bindKeys]
      cases h2 : Params.bind ps1 (0 + 1 + (0 + sets.length)) b with
      | none => rfl
      | some ps2 =>
        simp only
        have l2 := Params.bind_length _ ps2 _ b h2
        rw [bindKeys_none (c :: rest) _ _ ps2 (by simp) (by omega)]
        rw [l2, l1]
        simp only [List.length_append, List.length_map, List.length_replicate, List.length_cons]
        omega

/-- An UPDATE with a non-empty SET list and one or two key fields issues the
update statement, with the SET fields bound first and the key fields after
them, each with its datum, its OID and the binary format code. -/
theorem handleUpdate_exec_issues (w : Target) (tr : List Effect) (m : pb.Change)
    (keys sets : List pb.Field) (hs : sets ≠ []) (hk : keys ≠ []) (hk2 : keys.length ≤ 2) :
    handleUpdate.exec w tr m keys sets =
      ((w.call tr (Effect.ExecParams (sql.Query.UpdateQuery m.Namespace m.Table sets keys)
          ((sets ++ keys).map (fun x => x.Datum)) ((sets ++ keys).map (fun x => x.Oid))
          ((sets ++ keys).map (fun _ => 1)) ((sets ++ keys).map (fun _ => 1)))).1,
       Status.ofErr (w.call tr (Effect.ExecParams
          (sql.Query.UpdateQuery m.Namespace m.Table sets keys)
          ((sets ++ keys).map (fun x => x.Datum)) ((sets ++ keys).map (fun x => x.Oid))
          ((sets ++ keys).map (fun _ => 1)) ((sets ++ keys).map (fun _ => 1)))).2) := by
  unfold handleUpdate.exec
  have hs0 : ¬ (sets.length = 0 ∨ keys.length = 0) := by
    have h1 : sets.length ≠ 0 := by simpa using hs
    have h2 : keys.length ≠ 0 := by simpa using hk
    omega
  rw [if_neg hs0]
  have hb := bindSets_eq sets [] [] [] keys.length rfl rfl
  simp only [List.length_nil, List.nil_append, Nat.zero_add] at hb
  unfold Params.make
  rw [hb]
  simp only
  have hlv : (sets.map (fun x => x.Datum)).length = sets.length := by simp
  have hlo : (sets.map (fun x => x.Oid)).length = sets.length := by simp
  have hlf : (sets.map (fun _ : pb.Field => 1)).length = sets.length := by simp
  match keys, hk, hk2 with
  | [a], _, _ =>
    have h1 : Params.bind
        ⟨sets.map (fun x => x.Datum) ++ List.replicate 1 "",
         sets.map (fun x => x.Oid) ++ List.replicate 1 0,
         sets.map (fun _ => 1) ++ List.replicate 1 0⟩ (0 + sets.length) a =
        some ⟨sets.map (fun x => x.Datum) ++ [a.Datum], sets.map (fun x => x.Oid) ++ [a.Oid],
              sets.map (fun _ => 1) ++ [1]⟩ := by
      unfold Params.bind
      rw [if_pos (by simp)]
      simp only [Nat.zero_add]
      have e1 := set_at_boundary (sets.map (fun x => x.Datum)) "" a.Datum 0
      have e2 := set_at_boundary (sets.map (fun x => x.Oid)) 0 a.Oid 0
      have e3 := set_at_boundary (sets.map (fun _ : pb.Field => 1)) 0 1 0
      rw [hlv] at e1; rw [hlo] at e2; rw [hlf] at e3
      simp only [Nat.zero_add, List.replicate_zero, List.append_nil] at e1 e2 e3
      rw [e1, e2, e3]
    simp only [List.length_singleton, handleUpdate.bindKeys, h1, List.map_append,
      List.map_cons, List.map_nil]
  | [a, b], _, _ =>
    have h1 : Params.bind
        ⟨sets.map (fun x => x.Datum) ++ List.replicate 2 "",
         sets.map (fun x => x.Oid) ++ List.replicate 2 0,
         sets.map (fun _ => 1) ++ List.replicate 2 0⟩ (0 + sets.length) a =
        some ⟨(sets.map (fun x => x.Datum) ++ [a.Datum]) ++ List.replicate 1 "",
              (sets.map (fun x => x.Oid) ++ [a.Oid]) ++ List.replicate 1 0,
              (sets.map (fun _ => 1) ++ [1]) ++ List.replicate 1 0⟩ := by
      unfold Params.bind
      rw [if_pos (by simp)]
      simp only [Nat.zero_add]
      have e1 := set_at_boundary (sets.map (fun x => x.Datum)) "" a.Datum 1
      have e2 := set_at_boundary (sets.map (fun x => x.Oid)) 0 a.Oid 1
      have e3 := set_at_boundary (sets.map (fun _ : pb.Field => 1)) 0 1 1
      rw [hlv] at e1; rw [hlo] at e2; rw [hlf] at e3
      rw [e1, e2, e3]
    have h2 : Params.bind
        ⟨(sets.map (fun x => x.Datum) ++ [a.Datum]) ++ List.replicate 1 "",
         (sets.map (fun x => x.Oid) ++ [a.Oid]) ++ List.replicate 1 0,
         (sets.map (fun _ => 1) ++ [1]) ++ List.replicate 1 0⟩ (0 + 1 + (0 + sets.length)) b =
        some ⟨(sets.map (fun x => x.Datum) ++ [a.Datum]) ++ [b.Datum],
              (sets.map (fun x => x.Oid) ++ [a.Oid]) ++ [b.Oid],
              (sets.map (fun _ => 1) ++ [1]) ++ [1]⟩ := by
      unfold Params.bind
      rw [if_pos (by simp; omega)]
      have e1 := set_at_boundary (sets.map (fun x => x.Datum) ++ [a.Datum]) "" b.Datum 0
      have e2 := set_at_boundary (sets.map (fun x => x.Oid) ++ [a.Oid]) 0 b.Oid 0
      have e3 := set_at_boundary (sets.map (fun _ : pb.Field => 1) ++ [1]) 0 1 0
      have hi : 0 + 1 + (0 + sets.length) = sets.length + 1 := by omega
      simp only [List.length_append, List.length_singleton, hlv, hlo, hlf, Nat.zero_add,
        List.replicate_zero, List.append_nil] at e1 e2 e3
      simp only [hi]
      rw [e1, e2, e3]
    simp only [List.length_cons, List.length_nil, Nat.zero_add]
    rw [handleUpdate.bindKeys, h1]
    simp only
    rw [handleUpdate.bindKeys, h2]
    simp [handleUpdate.bindKeys]

/-- With a non-null OldTuple the key predicate is OldTuple and the SET list is
NewTuple. -/
theorem handleUpdate_with_old (w : Target) (p : PGXSink) (tr : List Effect) (m : pb.Change)
    (old : List pb.Field) (hold : m.OldTuple = some old) :
    handleUpdate w p tr m = handleUpdate.exec w tr m old m.NewTuple := by
  unfold handleUpdate
  rw [hold]

/-- With a null OldTuple and a cached key list no longer than NewTuple, the key
predicate is the NewTuple fields named in the list and the SET list the others. -/
theorem handleUpdate_null_old (w : Target) (p : PGXSink) (tr : List Effect) (m : pb.Change)
    (kf : List String) (hold : m.OldTuple = none)
    (hkf : p.schema m.Namespace m.Table = Except.ok kf) (hcap : kf.length ≤ m.NewTuple.length) :
    handleUpdate w p tr m =
      handleUpdate.exec w tr m (m.NewTuple.filter (fun f => decide (f.Name ∈ kf)))
        (m.NewTuple.filter (fun f => !decide (f.Name ∈ kf))) := by
  unfold handleUpdate
  rw [hold]
  simp only [hkf]
  rw [if_neg (by omega), handleUpdate_split_eq]

/-! ## C5: DDL-SKIP -/

theorem handleDDL_loop_cons (w : Target) (p : PGXSink) (tr : List Effect) (err : Option Error)
    (f : pb.Field) (rest : List pb.Field) :
    handleDDL.loop w p tr err (f :: rest) =
      if f.Name = "query" then
        handleDDL.loop w p (w.call tr (Effect.Exec f.Datum)).1 (w.call tr (Effect.Exec f.Datum)).2 rest
      else if f.Name = "tags" then
        handleDDL.loop w { p with skip := TableLoadDDLRegex.Match f.Datum } tr err rest
      else handleDDL.loop w p tr err rest := by
  rw [handleDDL.loop]

theorem handleDDL_loop_append (w : Target) (a b : List pb.Field) :
    ∀ (p : PGXSink) (tr : List Effect) (err : Option Error),
      handleDDL.loop w p tr err (a ++ b) =
        handleDDL.loop w (handleDDL.loop w p tr err a).1 (handleDDL.loop w p tr err a).2.1
          (handleDDL.loop w p tr err a).2.2 b := by
  induction a with
  | nil => intro p tr err; rfl
  | cons f rest ih =>
    intro p tr err
    rw [List.cons_append, handleDDL_loop_cons w p tr err f (rest ++ b),
      handleDDL_loop_cons w p tr err f rest]
    by_cases hq : f.Name = "query"
    · rw [if_pos hq, if_pos hq]; exact ih _ _ _
    · rw [if_neg hq, if_neg hq]
      by_cases ht : f.Name = "tags"
      · rw [if_pos ht, if_pos ht]; exact ih _ _ _
      · rw [if_neg ht, if_neg ht]; exact ih _ _ _

theorem handleDDL_loop_skip_of_no_tags (w : Target) (fields : List pb.Field)
    (h : ∀ g ∈ fields, g.Name ≠ "tags") :
    ∀ (p : PGXSink) (tr : List Effect) (err : Option Error),
      (handleDDL.loop w p tr err fields).1.skip = p.skip := by
  induction fields with
  | nil => intro p tr err; rfl
  | cons f rest ih =>
    intro p tr err
    have hr := ih (fun g hg => h g (List.mem_cons_of_mem _ hg))
    have ht : f.Name ≠ "tags" := h f (List.mem_cons_self _ _)
    unfold handleDDL.loop
    by_cases hq : f.Name = "query"
    · rw [if_pos hq]; exact hr _ _ _
    · rw [if_neg hq, if_neg ht]; exact hr _ _ _

/-- The skip flag `handleDDL` leaves is decided by the last `tags` field. -/
theorem handleDDL_loop_skip_last_tags (w : Target) (pre post : List pb.Field) (f : pb.Field)
    (hf : f.Name = "tags") (hlast : ∀ g ∈ post, g.Name ≠ "tags")
    (p : PGXSink) (tr : List Effect) (err : Option Error) :
    (handleDDL.loop w p tr err (pre ++ f :: post)).1.skip = TableLoadDDLRegex.Match f.Datum := by
  rw [handleDDL_loop_append]
  have hq : f.Name ≠ "query" := by rw [hf]; decide
  rw [handleDDL_loop_cons, if_neg hq, if_pos hf, handleDDL_loop_skip_of_no_tags w post hlast]

theorem Apply_skipping (w : Target) (p : PGXSink) (tr : List Effect)
    (hin : p.inTX = true) (hskip : p.skip = true) (rest : List source.Change)
    (h : ∀ c ∈ rest, ∃ m, c.Message = pb.Message.Change m) :
    Apply w p tr rest = ⟨p, tr, Status.ok⟩ := by
  induction rest with
  | nil => rfl
  | cons c cs ih =>
    obtain ⟨m, hm⟩ := h c (List.mem_cons_self _ _)
    have hc : Apply.handler w p tr c = ⟨p, tr, Status.ok⟩ := by
      unfold Apply.handler
      split
      · rfl
      · rw [hm]; simp [hin, hskip]
    rw [Apply, hc]
    exact ih (fun x hx => h x (List.mem_cons_of_mem _ hx))

/-- C5, the claim refuted: in the transaction `Begin@1 DDL@2 INSERT@3` the DDL
change carries a `tags` field with datum `{SELECT}` followed by a second `tags`
field with datum `{}`; the skip flag is left clear and the INSERT that follows
is sent to the target. And after resuming at checkpoint 10 (internal `lsn` 9),
in `Begin@10 DDL@9 INSERT@11` the select-into DDL change is dropped by the
filter, so the INSERT that follows is sent to the target as well. -/
theorem ddl_skip_counterexample :
    ((∃ f ∈ twoTagsDDL.NewTuple, f.Name = "tags" ∧ TableLoadDDLRegex.Match f.Datum = true) ∧
     decode.IsDDL twoTagsDDL = true ∧
     (Apply Target.accepting sink0 []
       [msgAt 1 pb.Message.Begin, msgAt 2 (pb.Message.Change twoTagsDDL),
        msgAt 3 (pb.Message.Change insertT3)]).sink.skip = false ∧
     (Apply Target.accepting sink0 []
       [msgAt 1 pb.Message.Begin, msgAt 2 (pb.Message.Change twoTagsDDL),
        msgAt 3 (pb.Message.Change insertT3)]).trace =
       [Effect.Exec "begin", Effect.Exec "select * into t4 from t3",
        Effect.ExecParams (sql.Query.InsertQuery "public" "t3" insertT3.NewTuple)
          ["\x00\x00\x00\x01", "\x00\x00\x00\x01", "A"] [23, 23, 25] [1, 1, 1] [1, 1, 1]]) ∧
    ((∃ f ∈ selectIntoDDL.NewTuple, f.Name = "tags" ∧ TableLoadDDLRegex.Match f.Datum = true) ∧
     decode.IsDDL selectIntoDDL = true ∧
     (Apply Target.accepting resumed10 []
       [msgAt 10 pb.Message.Begin, msgAt 9 (pb.Message.Change selectIntoDDL),
        msgAt 11 (pb.Message.Change insertT3)]).trace =
       [Effect.Exec "begin",
        Effect.ExecParams (sql.Query.InsertQuery "public" "t3" insertT3.NewTuple)
          ["\x00\x00\x00\x01", "\x00\x00\x00\x01", "A"] [23, 23, 25] [1, 1, 1] [1, 1, 1]]) := by
  decide

/-- C5 (DDL-SKIP), amended: inside a transaction, once a DDL change that passes
the drop filter has been handled whose last `tags` field has a datum containing
`CREATE TABLE AS` or `SELECT`, the skip flag is set, every run of subsequent
Change messages (DDL or not) ends without error, with no call added to the
trace and the sink unchanged, and a Commit that passes the drop filter and
whose statements succeed leaves the skip flag clear. -/
theorem ddl_skip_last_tags (w : Target) (p : PGXSink) (tr : List Effect)
    (cp : source.Checkpoint) (m : pb.Change) (pre post : List pb.Field) (f : pb.Field)
    (hin : p.inTX = true) (hlsn : p.lsn < cp.LSN) (hddl : decode.IsDDL m = true)
    (hm : m.NewTuple = pre ++ f :: post) (hf : f.Name = "tags")
    (hmatch : TableLoadDDLRegex.Match f.Datum = true) (hlast : ∀ g ∈ post, g.Name ≠ "tags") :
    (Apply.handler w p tr ⟨cp, pb.Message.Change m⟩).status = Status.ok ∧
    (Apply.handler w p tr ⟨cp, pb.Message.Change m⟩).sink.skip = true ∧
    (∀ rest : List source.Change, (∀ c ∈ rest, ∃ m1, c.Message = pb.Message.Change m1) →
      Apply w (Apply.handler w p tr ⟨cp, pb.Message.Change m⟩).sink
          (Apply.handler w p tr ⟨cp, pb.Message.Change m⟩).trace rest =
        ⟨(Apply.handler w p tr ⟨cp, pb.Message.Change m⟩).sink,
         (Apply.handler w p tr ⟨cp, pb.Message.Change m⟩).trace, Status.ok⟩) ∧
    (∀ (cpC : source.Checkpoint) (t : Nat) (q : PGXSink) (tr1 : List Effect),
      q.inTX = true → q.lsn < cpC.LSN → (handleCommit w q tr1 cpC t).2 = none →
      (Apply.handler w q tr1 ⟨cpC, pb.Message.Commit t⟩).sink.skip = false) := by
  have hnd : ¬ (p.lsn ≥ cp.LSN) := by omega
  have hstate : (Apply.handler w p tr ⟨cp, pb.Message.Change m⟩).status = Status.ok ∧
      (Apply.handler w p tr ⟨cp, pb.Message.Change m⟩).sink.skip = true ∧
      (Apply.handler w p tr ⟨cp, pb.Message.Change m⟩).sink.inTX = true := by
    unfold Apply.handler
    rw [if_neg hnd]
    by_cases hs : p.skip = true
    · simp [hin, hs]
    · have hs1 : p.skip = false := by simpa using hs
      have hfr := handleDDL_loop_frame w m.NewTuple { p with refresh := true } tr none
      have hsk := handleDDL_loop_skip_last_tags w pre post f hf hlast
        { p with refresh := true } tr none
      rw [← hm, hmatch] at hsk
      simp only [hin, hs1, hddl, Bool.not_true, if_true, if_false, Bool.false_eq_true]
      refine ⟨rfl, ?_, ?_⟩
      · simpa [handleDDL, hin, hs1] using hsk
      · simpa [handleDDL, hin, hs1] using hfr.2.1
  refine ⟨hstate.1, hstate.2.1, ?_, ?_⟩
  · intro rest hrest
    exact Apply_skipping w _ _ hstate.2.2 hstate.2.1 rest hrest
  · intro cpC t q tr1 hq hlt hok
    have hnd1 : ¬ (q.lsn ≥ cpC.LSN) := by omega
    unfold Apply.handler
    rw [if_neg hnd1]
    simp only [hq, Bool.not_true, if_false, Bool.false_eq_true]
    rw [hok]
    simp only
    split <;> rfl

/-- C5, the amended claim at the select-into transaction of `TestPGXSink`. -/
theorem ddl_skip_last_tags_witness :
    (sinkInTx.inTX = true ∧ sinkInTx.lsn < 2 ∧ decode.IsDDL selectIntoDDL = true ∧
      TableLoadDDLRegex.Match "\x7bSELECT\x7d" = true) ∧
    (Apply.handler Target.accepting sinkInTx [] ⟨⟨2, 0⟩, pb.Message.Change selectIntoDDL⟩).status
      = Status.ok ∧
    (Apply.handler Target.accepting sinkInTx [] ⟨⟨2, 0⟩, pb.Message.Change selectIntoDDL⟩).sink.skip
      = true ∧
    (∀ rest : List source.Change, (∀ c ∈ rest, ∃ m1, c.Message = pb.Message.Change m1) →
      Apply Target.accepting
          (Apply.handler Target.accepting sinkInTx [] ⟨⟨2, 0⟩, pb.Message.Change selectIntoDDL⟩).sink
          (Apply.handler Target.accepting sinkInTx [] ⟨⟨2, 0⟩, pb.Message.Change selectIntoDDL⟩).trace
          rest =
        ⟨(Apply.handler Target.accepting sinkInTx [] ⟨⟨2, 0⟩, pb.Message.Change selectIntoDDL⟩).sink,
         (Apply.handler Target.accepting sinkInTx [] ⟨⟨2, 0⟩, pb.Message.Change selectIntoDDL⟩).trace,
         Status.ok⟩) ∧
    (∀ (cpC : source.Checkpoint) (t : Nat) (q : PGXSink) (tr1 : List Effect),
      q.inTX = true → q.lsn < cpC.LSN → (handleCommit Target.accepting q tr1 cpC t).2 = none →
      (Apply.handler Target.accepting q tr1 ⟨cpC, pb.Message.Commit t⟩).sink.skip = false) :=
  ⟨⟨by decide, by decide, by decide, by decide⟩,
    ddl_skip_last_tags Target.accepting sinkInTx [] ⟨2, 0⟩ selectIntoDDL
      [⟨"query", 0, "select * into t4 from t3"⟩] [] ⟨"tags", 0, "\x7bSELECT\x7d"⟩
      (by decide) (by decide) (by decide) (by decide) (by decide) (by decide) (by decide)⟩

/-! ## C6: SCHEMA-FRESH -/

theorem Apply_append (w : Target) (a b : List source.Change) :
    ∀ (p : PGXSink) (tr : List Effect),
      (Apply w p tr a).status = Status.ok →
      Apply w p tr (a ++ b) = Apply w (Apply w p tr a).sink (Apply w p tr a).trace b := by
  induction a with
  | nil => intro p tr _; rfl
  | cons c cs ih =>
    intro p tr h
    rw [List.cons_append]
    rw [Apply] at h ⊢
    rw [Apply]
    cases hs : (Apply.handler w p tr c).status with
    | ok =>
      rw [hs] at h
      exact ih _ _ h
    | failed e => rw [hs] at h; simp only at h; rw [hs] at h; cases h
    | panicked => rw [hs] at h; simp only at h; rw [hs] at h; cases h

theorem Apply_status_of_append (w : Target) (a b : List source.Change) :
    ∀ (p : PGXSink) (tr : List Effect),
      (Apply w p tr (a ++ b)).status = Status.ok → (Apply w p tr a).status = Status.ok := by
  induction a with
  | nil => intro p tr _; rfl
  | cons c cs ih =>
    intro p tr h
    rw [List.cons_append, Apply] at h
    rw [Apply]
    cases hs : (Apply.handler w p tr c).status with
    | ok =>
      rw [hs] at h
      exact ih _ _ h
    | failed e => rw [hs] at h; simp only at h; rw [hs] at h; cases h
    | panicked => rw [hs] at h; simp only at h; rw [hs] at h; cases h

/-- A Begin that reaches the idle sink opens a transaction with one statement. -/
theorem handler_begin_idle (w : Target) (p : PGXSink) (tr : List Effect)
    (cp : source.Checkpoint) (hidle : p.inTX = false) (hlsn : p.lsn < cp.LSN) :
    (Apply.handler w p tr ⟨cp, pb.Message.Begin⟩).sink = { p with inTX := true } ∧
    (Apply.handler w p tr ⟨cp, pb.Message.Begin⟩).trace = tr ++ [Effect.Exec "begin"] := by
  have hnd : ¬ (p.lsn ≥ cp.LSN) := by omega
  unfold Apply.handler
  rw [if_neg hnd]
  simp [hidle, handleBegin, Target.call]

/-- A Change handled inside a transaction: the sink stays in the transaction,
the refresh flag is raised exactly by a DDL change, and only statements are
added to the trace. The flag is already up whenever the skip flag is. -/
theorem handler_change_inTx (w : Target) (p : PGXSink) (tr : List Effect)
    (cp : source.Checkpoint) (m : pb.Change)
    (hin : p.inTX = true) (hinv : p.skip = true → p.refresh = true) :
    (Apply.handler w p tr ⟨cp, pb.Message.Change m⟩).sink.inTX = true ∧
    (Apply.handler w p tr ⟨cp, pb.Message.Change m⟩).sink.lsn = p.lsn ∧
    ((Apply.handler w p tr ⟨cp, pb.Message.Change m⟩).sink.skip = true →
      (Apply.handler w p tr ⟨cp, pb.Message.Change m⟩).sink.refresh = true) ∧
    (p.lsn < cp.LSN → (Apply.handler w p tr ⟨cp, pb.Message.Change m⟩).sink.refresh
      = (p.refresh || decode.IsDDL m)) ∧
    Extends tr (Apply.handler w p tr ⟨cp, pb.Message.Change m⟩).trace := by
  by_cases hd : p.lsn ≥ cp.LSN
  · have hres : Apply.handler w p tr ⟨cp, pb.Message.Change m⟩ = ⟨p, tr, Status.ok⟩ := by
      unfold Apply.handler; rw [if_pos hd]
    rw [hres]
    exact ⟨hin, rfl, hinv, fun h => absurd h (by omega), Extends.refl tr⟩
  · by_cases hs : p.skip = true
    · have hr := hinv hs
      have hres : Apply.handler w p tr ⟨cp, pb.Message.Change m⟩ = ⟨p, tr, Status.ok⟩ := by
        unfold Apply.handler; rw [if_neg hd]; simp [hin, hs]
      rw [hres]
      exact ⟨hin, rfl, fun _ => hr, fun _ => by simp [hr], Extends.refl tr⟩
    · have hs1 : p.skip = false := by simpa using hs
      by_cases hddl : decode.IsDDL m = true
      · have hfr := handleDDL_loop_frame w m.NewTuple { p with refresh := true } tr none
        have hres : Apply.handler w p tr ⟨cp, pb.Message.Change m⟩ =
            ⟨(handleDDL w { p with refresh := true } tr m).1,
             (handleDDL w { p with refresh := true } tr m).2.1,
             Status.ofErr (handleDDL w { p with refresh := true } tr m).2.2⟩ := by
          unfold Apply.handler; rw [if_neg hd]; simp [hin, hs1, hddl]
        rw [hres]
        refine ⟨?_, ?_, ?_, ?_, ?_⟩
        · simpa [handleDDL, hin] using hfr.2.1
        · simpa [handleDDL] using hfr.1
        · intro _; simpa [handleDDL] using hfr.2.2.1
        · intro _; simpa [handleDDL, hddl] using hfr.2.2.1
        · simpa [handleDDL] using hfr.2.2.2
      · have hddl1 : decode.IsDDL m = false := by simpa using hddl
        have hres : Apply.handler w p tr ⟨cp, pb.Message.Change m⟩ =
            ⟨p, (handleChange w p tr m).1, (handleChange w p tr m).2⟩ := by
          unfold Apply.handler; rw [if_neg hd]; simp [hin, hs1, hddl1]
        rw [hres]
        exact ⟨hin, rfl, fun h => absurd h (by simp [hs1]), fun _ => by simp [hddl1],
          handleChange_frame w p tr m⟩

/-- A run of Change messages inside a transaction that ends without error. -/
theorem Apply_changes_inTx (w : Target) (changes : List (source.Checkpoint × pb.Change)) :
    ∀ (p : PGXSink) (tr : List Effect),
      p.inTX = true → (p.skip = true → p.refresh = true) →
      (∀ x ∈ changes, p.lsn < x.1.LSN) →
      (Apply w p tr (changes.map (fun x => ⟨x.1, pb.Message.Change x.2⟩))).status = Status.ok →
      (Apply w p tr (changes.map (fun x => ⟨x.1, pb.Message.Change x.2⟩))).sink.inTX = true ∧
      (Apply w p tr (changes.map (fun x => ⟨x.1, pb.Message.Change x.2⟩))).sink.lsn = p.lsn ∧
      (Apply w p tr (changes.map (fun x => ⟨x.1, pb.Message.Change x.2⟩))).sink.refresh
        = (p.refresh || changes.any (fun x => decode.IsDDL x.2)) ∧
      Extends tr (Apply w p tr (changes.map (fun x => ⟨x.1, pb.Message.Change x.2⟩))).trace := by
  induction changes with
  | nil =>
    intro p tr hin _ _ _
    exact ⟨hin, rfl, by simp [Apply], Extends.refl tr⟩
  | cons x xs ih =>
    intro p tr hin hinv hlsn hok
    obtain ⟨h1, h2, h3, h4, h5⟩ := handler_change_inTx w p tr x.1 x.2 hin hinv
    have hx := hlsn x (List.mem_cons_self _ _)
    rw [List.map_cons, Apply] at hok ⊢
    cases hs : (Apply.handler w p tr ⟨x.1, pb.Message.Change x.2⟩).status with
    | ok =>
      rw [hs] at hok
      simp only [hs]
      obtain ⟨g1, g2, g3, g4⟩ := ih _ _ h1 h3
        (fun y hy => by rw [h2]; exact hlsn y (List.mem_cons_of_mem _ hy)) hok
      refine ⟨g1, g2.trans h2, ?_, h5.trans g4⟩
      rw [g3, h4 hx, List.any_cons, Bool.or_assoc]
    | failed e => rw [hs] at hok; simp only at hok; rw [hs] at hok; cases hok
    | panicked => rw [hs] at hok; simp only at hok; rw [hs] at hok; cases hok

theorem handleCommit_ok (w : Target) (p : PGXSink) (tr : List Effect)
    (cp : source.Checkpoint) (t : Nat) (h : (handleCommit w p tr cp t).2 = none) :
    (handleCommit w p tr cp t).1 = tr ++
      [Effect.Prepare UpdateSourceSQL UpdateSourceSQL,
       Effect.ExecArgs UpdateSourceSQL p.SourceID (wrapInt64 (cp.LSN : Int)) (pgTz t),
       Effect.Exec "commit"] := by
  revert h
  unfold handleCommit
  dsimp only
  split
  · intro h; cases h
  · split
    · intro h; cases h
    · intro _; simp [Target.call]

/-- A Commit handled inside a transaction that ends without error: the source
row is stored, the target commits, the checkpoint is written to the committed
channel, and `RefreshKeys` follows exactly when the refresh flag was up. -/
theorem handler_commit_ok (w : Target) (p : PGXSink) (tr : List Effect)
    (cp : source.Checkpoint) (t : Nat) (hin : p.inTX = true) (hlsn : p.lsn < cp.LSN)
    (hok : (Apply.handler w p tr ⟨cp, pb.Message.Commit t⟩).status = Status.ok) :
    (Apply.handler w p tr ⟨cp, pb.Message.Commit t⟩).trace = tr ++
      [Effect.Prepare UpdateSourceSQL UpdateSourceSQL,
       Effect.ExecArgs UpdateSourceSQL p.SourceID (wrapInt64 (cp.LSN : Int)) (pgTz t)] ++
      [Effect.Exec "commit", Effect.Committed cp] ++
      (if p.refresh = true then [Effect.RefreshKeys] else []) ∧
    (Apply.handler w p tr ⟨cp, pb.Message.Commit t⟩).sink.refresh = false ∧
    (Apply.handler w p tr ⟨cp, pb.Message.Commit t⟩).sink.inTX = false ∧
    (Apply.handler w p tr ⟨cp, pb.Message.Commit t⟩).sink.skip = false := by
  have hnd : ¬ (p.lsn ≥ cp.LSN) := by omega
  cases hc : (handleCommit w p tr cp t).2 with
  | some e =>
    have hres : (Apply.handler w p tr ⟨cp, pb.Message.Commit t⟩).status = Status.failed e := by
      unfold Apply.handler; rw [if_neg hnd]; simp [hin, hc]
    rw [hres] at hok
    cases hok
  | none =>
    have htr := handleCommit_ok w p tr cp t hc
    by_cases hr : p.refresh = true
    · have hres : Apply.handler w p tr ⟨cp, pb.Message.Commit t⟩ =
          ⟨{ p with
              inTX := false, skip := false, refresh := false,
              schema := (RefreshKeys w p.schema
                ((handleCommit w p tr cp t).1 ++ [Effect.Committed cp])).1 },
           (RefreshKeys w p.schema ((handleCommit w p tr cp t).1 ++ [Effect.Committed cp])).2.1,
           Status.ofErr
             (RefreshKeys w p.schema ((handleCommit w p tr cp t).1 ++ [Effect.Committed cp])).2.2⟩ := by
        unfold Apply.handler; rw [if_neg hnd]; simp [hin, hc, hr]
      rw [hres]
      refine ⟨?_, rfl, rfl, rfl⟩
      rw [htr, if_pos hr]
      unfold RefreshKeys
      dsimp only
      split <;> simp [Target.call]
    · have hr1 : p.refresh = false := by simpa using hr
      have hres : Apply.handler w p tr ⟨cp, pb.Message.Commit t⟩ =
          ⟨{ p with inTX := false, skip := false },
           (handleCommit w p tr cp t).1 ++ [Effect.Committed cp], Status.ok⟩ := by
        unfold Apply.handler; rw [if_neg hnd]; simp [hin, hc, hr1]
      rw [hres]
      refine ⟨?_, hr1, rfl, rfl⟩
      rw [htr, if_neg hr]
      simp

/-- C6 (SCHEMA-FRESH): for every target and every transaction (Begin, Changes,
Commit) that an idle sink (not in a transaction, skip and refresh flags clear)
applies without error and with no message dropped, the trace of the run ends
with the database COMMIT, the write to the committed channel and then, if and
only if the transaction contained at least one DDL change, one `RefreshKeys`;
nothing before the COMMIT is a `RefreshKeys`, and the run leaves the refresh
flag clear. -/
theorem schema_fresh (w : Target) (p : PGXSink) (tr : List Effect)
    (cpB cpC : source.Checkpoint) (changes : List (source.Checkpoint × pb.Change)) (t : Nat)
    (hidle : p.inTX = false) (hskip : p.skip = false) (hrefresh : p.refresh = false)
    (hB : p.lsn < cpB.LSN) (hchanges : ∀ x ∈ changes, p.lsn < x.1.LSN) (hC : p.lsn < cpC.LSN)
    (hok : (Apply w p tr (txStream cpB changes cpC t)).status = Status.ok) :
    ∃ mid : List Effect,
      (Apply w p tr (txStream cpB changes cpC t)).trace =
        tr ++ mid ++ [Effect.Exec "commit", Effect.Committed cpC] ++
          (if changes.any (fun x => decode.IsDDL x.2) = true then [Effect.RefreshKeys] else []) ∧
      Effect.RefreshKeys ∉ mid ∧
      (Apply w p tr (txStream cpB changes cpC t)).sink.refresh = false := by
  obtain ⟨hb1, hb2⟩ := handler_begin_idle w p tr cpB hidle hB
  unfold txStream at hok ⊢
  rw [Apply] at hok ⊢
  cases hs : (Apply.handler w p tr ⟨cpB, pb.Message.Begin⟩).status with
  | failed e => rw [hs] at hok; simp only at hok; rw [hs] at hok; cases hok
  | panicked => rw [hs] at hok; simp only at hok; rw [hs] at hok; cases hok
  | ok =>
    rw [hs] at hok
    simp only [hs]
    rw [hb1, hb2] at hok ⊢
    have hpre := Apply_status_of_append w _ _ _ _ hok
    rw [Apply_append w _ _ _ _ hpre] at hok ⊢
    obtain ⟨g1, g2, g3, ext, g4, g5⟩ := Apply_changes_inTx w changes { p with inTX := true }
      (tr ++ [Effect.Exec "begin"]) rfl (fun h => by simp [hskip] at h) hchanges hpre
    have hr : (Apply w { p with inTX := true } (tr ++ [Effect.Exec "begin"])
        (changes.map (fun x => ⟨x.1, pb.Message.Change x.2⟩))).sink.refresh
          = changes.any (fun x => decode.IsDDL x.2) := by
      rw [g3]; simp [hrefresh]
    have hok1 : (Apply.handler w
        (Apply w { p with inTX := true } (tr ++ [Effect.Exec "begin"])
          (changes.map (fun x => ⟨x.1, pb.Message.Change x.2⟩))).sink
        (Apply w { p with inTX := true } (tr ++ [Effect.Exec "begin"])
          (changes.map (fun x => ⟨x.1, pb.Message.Change x.2⟩))).trace
        ⟨cpC, pb.Message.Commit t⟩).status = Status.ok := by
      rw [Apply] at hok
      revert hok
      cases hh : (Apply.handler w _ _ ⟨cpC, pb.Message.Commit t⟩).status with
      | ok => intro _; rfl
      | failed e => intro h; simp only at h; rw [hh] at h; cases h
      | panicked => intro h; simp only at h; rw [hh] at h; cases h
    obtain ⟨c1, c2, _, _⟩ := handler_commit_ok w _ _ cpC t g1 (by rw [g2]; exact hC) hok1
    rw [Apply, hok1]
    simp only [Apply]
    refine ⟨[Effect.Exec "begin"] ++ ext ++
      [Effect.Prepare UpdateSourceSQL UpdateSourceSQL,
       Effect.ExecArgs UpdateSourceSQL
         (Apply w { p with inTX := true } (tr ++ [Effect.Exec "begin"])
           (changes.map (fun x => ⟨x.1, pb.Message.Change x.2⟩))).sink.SourceID
         (wrapInt64 (cpC.LSN : Int)) (pgTz t)], ?_, ?_, c2⟩
    · rw [c1, hr, g4]
      simp [List.append_assoc]
    · intro hmem
      simp only [List.mem_append, List.mem_cons, List.mem_singleton, List.not_mem_nil,
        or_false] at hmem
      rcases hmem with (h | h) | h
      · cases h
      · have := g5 _ h
        simp [Effect.isStatement] at this
      · rcases h with h | h <;> cases h

/-- C6 at a transaction that creates table `t3` and inserts a row: the run ends
with COMMIT, the committed checkpoint and one `RefreshKeys`. -/
theorem schema_fresh_witness :
    (sink0.inTX = false ∧ sink0.skip = false ∧ sink0.refresh = false ∧
      (Apply Target.accepting sink0 [] (txStream ⟨1, 0⟩ createT3Tx ⟨4, 0⟩ 0)).status
        = Status.ok) ∧
    ∃ mid : List Effect,
      (Apply Target.accepting sink0 [] (txStream ⟨1, 0⟩ createT3Tx ⟨4, 0⟩ 0)).trace =
        [] ++ mid ++ [Effect.Exec "commit", Effect.Committed ⟨4, 0⟩] ++
          (if createT3Tx.any (fun x => decode.IsDDL x.2) = true then [Effect.RefreshKeys]
            else []) ∧
      Effect.RefreshKeys ∉ mid ∧
      (Apply Target.accepting sink0 [] (txStream ⟨1, 0⟩ createT3Tx ⟨4, 0⟩ 0)).sink.refresh
        = false :=
  ⟨⟨by decide, by decide, by decide, by decide⟩,
    schema_fresh Target.accepting sink0 [] ⟨1, 0⟩ ⟨4, 0⟩ createT3Tx 0
      (by decide) (by decide) (by decide) (by decide) (by decide) (by decide) (by decide)⟩

/-! ## The idle sink has its flags clear -/

/-- Every handler invocation keeps the property that a sink outside a
transaction has the skip and the refresh flag clear. -/
theorem handler_idle_flags (w : Target) (p : PGXSink) (tr : List Effect)
    (change : source.Change)
    (hinv : p.inTX = false → p.skip = false ∧ p.refresh = false) :
    (Apply.handler w p tr change).sink.inTX = false →
      (Apply.handler w p tr change).sink.skip = false ∧
      (Apply.handler w p tr change).sink.refresh = false := by
  by_cases hd : p.lsn ≥ change.Checkpoint.LSN
  · rw [handler_dropped w p tr change hd]
    exact hinv
  · obtain ⟨cp, msg⟩ := change
    cases msg with
    | Begin =>
      unfold Apply.handler
      rw [if_neg hd]
      simp only
      split
      · exact hinv
      · intro h; simp at h
    | Change m =>
      by_cases hin : p.inTX = true
      · have h : (Apply.handler w p tr ⟨cp, pb.Message.Change m⟩).sink.inTX = true := by
          unfold Apply.handler
          rw [if_neg hd]
          simp only [hin, Bool.not_true, if_false, Bool.false_eq_true]
          split
          · exact hin
          · split
            · have hfr := handleDDL_loop_frame w m.NewTuple { p with refresh := true } tr none
              simpa [handleDDL, hin] using hfr.2.1
            · exact hin
        intro h0
        rw [h] at h0
        cases h0
      · have hin1 : p.inTX = false := by simpa using hin
        unfold Apply.handler
        rw [if_neg hd]
        simp only [hin1, Bool.not_false, if_true]
        exact fun _ => hinv hin1
    | Commit t =>
      unfold Apply.handler
      rw [if_neg hd]
      simp only
      split
      · exact hinv
      · split
        · exact hinv
        · split
          · intro _; exact ⟨rfl, rfl⟩
          · rename_i hr
            intro _
            exact ⟨rfl, by simpa using hr⟩
    | Unset =>
      unfold Apply.handler
      rw [if_neg hd]
      exact hinv

/-- After any run from a sink as `Setup` leaves it, a sink outside a
transaction has the skip and the refresh flag clear. -/
theorem Apply_idle_flags (w : Target) (changes : List source.Change) :
    ∀ (p : PGXSink) (tr : List Effect),
      (p.inTX = false → p.skip = false ∧ p.refresh = false) →
      (Apply w p tr changes).sink.inTX = false →
        (Apply w p tr changes).sink.skip = false ∧ (Apply w p tr changes).sink.refresh = false := by
  induction changes with
  | nil => intro p tr hinv; exact hinv
  | cons c cs ih =>
    intro p tr hinv
    have h := handler_idle_flags w p tr c hinv
    rw [Apply]
    split
    · exact ih _ _ h
    · exact h

end sink

namespace dblog

/-! ## C7: GATEWAY-ACK -/

theorem acknowledge_append_ok (pre : List CaptureRequest)
    (post : List (Except String CaptureRequest)) :
    (acknowledge (pre.map Except.ok ++ post)).1 =
      (acknowledge (pre.map Except.ok)).1 ++ (acknowledge post).1 := by
  induction pre with
  | nil => simp [acknowledge]
  | cons r rs ih =>
    show acknowledge.body r ++ (acknowledge (rs.map Except.ok ++ post)).1 =
      acknowledge.body r ++ (acknowledge (rs.map Except.ok)).1 ++ (acknowledge post).1
    rw [ih, List.append_assoc]

/-- C7 (GATEWAY-ACK): for every inbound stream in which the ack reader reads a
CaptureAck after the requests `pre` and before the results `post`, the calls
made on the source are those for `pre`, then those for the ack, then those for
`post`, where the ack contributes nothing when its checkpoint is 0, exactly one
`Commit` with that LSN when the checkpoint is non-zero and the requeue reason
empty, and exactly one `Requeue` with that LSN when the checkpoint is non-zero
and the reason non-empty. -/
theorem gateway_ack (pre : List CaptureRequest) (ack : CaptureAck)
    (post : List (Except String CaptureRequest)) :
    (ack.Checkpoint = 0 →
      (acknowledge (pre.map Except.ok ++ Except.ok (CaptureRequest.Ack ack) :: post)).1 =
        (acknowledge (pre.map Except.ok)).1 ++ (acknowledge post).1) ∧
    (ack.Checkpoint ≠ 0 → ack.RequeueReason = "" →
      (acknowledge (pre.map Except.ok ++ Except.ok (CaptureRequest.Ack ack) :: post)).1 =
        (acknowledge (pre.map Except.ok)).1 ++ [Output.Commit ⟨ack.Checkpoint, 0⟩] ++
          (acknowledge post).1) ∧
    (ack.Checkpoint ≠ 0 → ack.RequeueReason ≠ "" →
      (acknowledge (pre.map Except.ok ++ Except.ok (CaptureRequest.Ack ack) :: post)).1 =
        (acknowledge (pre.map Except.ok)).1 ++ [Output.Requeue ⟨ack.Checkpoint, 0⟩] ++
          (acknowledge post).1) := by
  rw [acknowledge_append_ok]
  refine ⟨?_, ?_, ?_⟩
  · intro h0
    simp [acknowledge, acknowledge.body, h0]
  · intro h0 hr
    simp [acknowledge, acknowledge.body, h0, hr]
  · intro h0 hr
    simp [acknowledge, acknowledge.body, h0, hr]

/-- C7 at the acks of a session: a dump ack (checkpoint 0), the ack
`checkpoint=12` and the requeue `checkpoint=11, reason=busy`, each read after an
Init and before the stream ends. -/
theorem gateway_ack_witness :
    (acknowledge ([CaptureRequest.Init "u"].map Except.ok ++
        Except.ok (CaptureRequest.Ack ⟨0, "busy"⟩) :: [Except.error "EOF"])).1 = [] ∧
    (acknowledge ([CaptureRequest.Init "u"].map Except.ok ++
        Except.ok (CaptureRequest.Ack ⟨12, ""⟩) :: [Except.error "EOF"])).1
      = [Output.Commit ⟨12, 0⟩] ∧
    (acknowledge ([CaptureRequest.Init "u"].map Except.ok ++
        Except.ok (CaptureRequest.Ack ⟨11, "busy"⟩) :: [Except.error "EOF"])).1
      = [Output.Requeue ⟨11, 0⟩] :=
  ⟨(gateway_ack [CaptureRequest.Init "u"] ⟨0, "busy"⟩ [Except.error "EOF"]).1 rfl,
   (gateway_ack [CaptureRequest.Init "u"] ⟨12, ""⟩ [Except.error "EOF"]).2.1 (by decide) rfl,
   (gateway_ack [CaptureRequest.Init "u"] ⟨11, "busy"⟩ [Except.error "EOF"]).2.2
     (by decide) (by decide)⟩

/-! ## C8: GATEWAY-DUMP -/

theorem sendDump_ok (env : Peers) (rows : List pb.Change) :
    ∀ tr : List Output,
      (∀ k c, rows[k]? = some c →
        env.Send (tr ++ (rows.take k).map dumpRow) ⟨0, c⟩ = none) →
      capture.sendDump env tr rows = (tr ++ rows.map dumpRow, none) := by
  induction rows with
  | nil => intro tr _; simp [capture.sendDump]
  | cons c rest ih =>
    intro tr h
    have h0 : env.Send tr ⟨0, c⟩ = none := by simpa using h 0 c (by simp)
    rw [capture.sendDump, h0]
    simp only
    rw [ih (tr ++ [Output.Send ⟨0, c⟩])]
    · simp [dumpRow]
    · intro k d hk
      have := h (k + 1) d (by simpa using hk)
      simpa [dumpRow, List.append_assoc] using this

theorem sendDump_fail (env : Peers) (rows : List pb.Change) :
    ∀ (tr : List Output) (k : Nat) (c : pb.Change) (e : String),
      rows[k]? = some c →
      (∀ i d, i < k → rows[i]? = some d →
        env.Send (tr ++ (rows.take i).map dumpRow) ⟨0, d⟩ = none) →
      env.Send (tr ++ (rows.take k).map dumpRow) ⟨0, c⟩ = some e →
      capture.sendDump env tr rows = (tr ++ (rows.take (k + 1)).map dumpRow, some e) := by
  induction rows with
  | nil => intro tr k c e hk; simp at hk
  | cons r rest ih =>
    intro tr k c e hk hpre hfail
    cases k with
    | zero =>
      have hc : r = c := by simpa using hk
      subst hc
      have h0 : env.Send tr ⟨0, r⟩ = some e := by simpa using hfail
      rw [capture.sendDump, h0]
      simp [dumpRow]
    | succ k =>
      have h0 : env.Send tr ⟨0, r⟩ = none := by simpa using hpre 0 r (by omega) (by simp)
      rw [capture.sendDump, h0]
      simp only
      rw [ih (tr ++ [Output.Send ⟨0, r⟩]) k c e (by simpa using hk)]
      · simp [dumpRow]
      · intro i d hi hd
        have := hpre (i + 1) d (by omega) (by simpa using hd)
        simpa [dumpRow, List.append_assoc] using this
      · simpa [dumpRow, List.append_assoc] using hfail

/-- C8, the claim refuted: when `LoadDump` succeeds with two rows and the
`Send` of the first row fails, the session returns that error and nothing is
written to the acks channel for the dump assignment. -/
theorem gateway_dump_counterexample :
    Peers.brokenStream.LoadDump [] 0 dumpT3 = Except.ok [sink.insertT3, sink.insertT3] ∧
    capture.step Peers.brokenStream ⟨0, []⟩ (Selected.dump dumpT3) =
      Step.ret ⟨0, [Output.LoadDump 0 dumpT3, dumpRow sink.insertT3]⟩ (some "broken pipe") ∧
    acksWritten [Output.LoadDump 0 dumpT3, dumpRow sink.insertT3] = [] :=
  ⟨rfl, by decide, by decide⟩

/-- C8 (GATEWAY-DUMP), amended: for every dump assignment the gateway takes
from the dumps channel: if `LoadDump` succeeds with rows `r1..rn` and every
`Send` succeeds, the gateway sends exactly the `n` messages with checkpoint 0
carrying `r1..rn` in order, then writes the empty string to acks, exactly one
value, and the session continues; if `LoadDump` fails with error `e` it sends
nothing and writes `e` to acks, exactly one value, and the session continues;
if the `Send` of row `k+1` is the first to fail, the rows up to that one have
been handed to `Send`, nothing is written to acks and the session returns the
error of that `Send`. -/
theorem gateway_dump (env : Peers) (s : Session) (info : DumpInfo) :
    (∀ rows : List pb.Change, env.LoadDump s.trace s.lsn info = Except.ok rows →
      (∀ k c, rows[k]? = some c →
        env.Send (s.trace ++ [Output.LoadDump s.lsn info] ++ (rows.take k).map dumpRow) ⟨0, c⟩
          = none) →
      capture.step env s (Selected.dump info) =
        Step.next ⟨s.lsn, s.trace ++ [Output.LoadDump s.lsn info] ++ rows.map dumpRow ++
          [Output.Ack ""]⟩) ∧
    (∀ e : String, env.LoadDump s.trace s.lsn info = Except.error e →
      capture.step env s (Selected.dump info) =
        Step.next ⟨s.lsn, s.trace ++ [Output.LoadDump s.lsn info] ++ [Output.Ack e]⟩) ∧
    (∀ (rows : List pb.Change) (k : Nat) (c : pb.Change) (e : String),
      env.LoadDump s.trace s.lsn info = Except.ok rows → rows[k]? = some c →
      (∀ i d, i < k → rows[i]? = some d →
        env.Send (s.trace ++ [Output.LoadDump s.lsn info] ++ (rows.take i).map dumpRow) ⟨0, d⟩
          = none) →
      env.Send (s.trace ++ [Output.LoadDump s.lsn info] ++ (rows.take k).map dumpRow) ⟨0, c⟩
        = some e →
      capture.step env s (Selected.dump info) =
        Step.ret ⟨s.lsn, s.trace ++ [Output.LoadDump s.lsn info] ++ (rows.take (k + 1)).map dumpRow⟩
          (some e)) := by
  refine ⟨?_, ?_, ?_⟩
  · intro rows hload hsend
    unfold capture.step
    simp only [hload]
    rw [sendDump_ok env rows _ hsend]
  · intro e hload
    unfold capture.step
    simp only [hload]
  · intro rows k c e hload hk hpre hfail
    unfold capture.step
    simp only [hload]
    rw [sendDump_fail env rows _ k c e hk hpre hfail]

/-- C8, the amended claim on healthy peers: the dump of `public.t3` delivers its
two rows and acknowledges with the empty string, and the dump of an unknown
table acknowledges with the error of `LoadDump`. -/
theorem gateway_dump_witness :
    capture.step Peers.healthy ⟨12, []⟩ (Selected.dump dumpT3) =
      Step.next ⟨12, [] ++ [Output.LoadDump 12 dumpT3] ++
        [sink.insertT3, sink.insertT3].map dumpRow ++ [Output.Ack ""]⟩ ∧
    capture.step Peers.healthy ⟨12, []⟩ (Selected.dump ⟨"public", "t9", "true"⟩) =
      Step.next ⟨12, [] ++ [Output.LoadDump 12 ⟨"public", "t9", "true"⟩] ++
        [Output.Ack "no such table"]⟩ ∧
    capture.step Peers.brokenStream ⟨12, []⟩ (Selected.dump dumpT3) =
      Step.ret ⟨12, [] ++ [Output.LoadDump 12 dumpT3] ++
        ([sink.insertT3, sink.insertT3].take (0 + 1)).map dumpRow⟩ (some "broken pipe") :=
  ⟨(gateway_dump Peers.healthy ⟨12, []⟩ dumpT3).1 [sink.insertT3, sink.insertT3] rfl
      (fun _ _ _ => rfl),
   (gateway_dump Peers.healthy ⟨12, []⟩ ⟨"public", "t9", "true"⟩).2.1 "no such table" rfl,
   (gateway_dump Peers.brokenStream ⟨12, []⟩ dumpT3).2.2 [sink.insertT3, sink.insertT3] 0
      sink.insertT3 "broken pipe" rfl rfl (fun i _ hi _ => absurd hi (Nat.not_lt_zero i)) rfl⟩

end dblog

namespace sink

/-! ## C9: `ScanCheckpointFromLog` -/

theorem isPrefixOf_length {a b : List Char} (h : a.isPrefixOf b = true) : a.length ≤ b.length := by
  induction a generalizing b with
  | nil => simp
  | cons x xs ih =>
    cases b with
    | nil => simp [List.isPrefixOf] at h
    | cons y ys =>
      simp only [List.isPrefixOf, Bool.and_eq_true] at h
      have := ih h.2
      simp only [List.length_cons]
      omega

/-- Every way a regular expression matches leaves a suffix of the input, after
consuming at least `minLen` characters. -/
theorem Regex.run_drop (re : Regex) :
    ∀ (inp r : List Char), r ∈ re.run inp →
      ∃ k, re.minLen ≤ k ∧ k ≤ inp.length ∧ r = inp.drop k := by
  induction re with
  | lit s =>
    intro inp r h
    simp only [Regex.run] at h
    split at h
    · rename_i hp
      simp only [List.mem_singleton] at h
      exact ⟨s.toList.length, le_refl _, isPrefixOf_length hp, h⟩
    · simp at h
  | alt a b iha ihb =>
    intro inp r h
    simp only [Regex.run, List.mem_append] at h
    rcases h with h | h
    · obtain ⟨k, h1, h2, h3⟩ := iha inp r h
      exact ⟨k, le_trans (Nat.min_le_left _ _) h1, h2, h3⟩
    · obtain ⟨k, h1, h2, h3⟩ := ihb inp r h
      exact ⟨k, le_trans (Nat.min_le_right _ _) h1, h2, h3⟩
  | seq a b iha ihb =>
    intro inp r h
    simp only [Regex.run, List.mem_flatMap] at h
    obtain ⟨r1, hr1, hr⟩ := h
    obtain ⟨k1, h1, h2, h3⟩ := iha inp r1 hr1
    obtain ⟨k2, g1, g2, g3⟩ := ihb r1 r hr
    subst h3
    refine ⟨k1 + k2, ?_, ?_, ?_⟩
    · simp only [Regex.minLen]; omega
    · simp only [List.length_drop] at g2; omega
    · rw [g3, List.drop_drop, Nat.add_comm]
  | cls p lo hi =>
    intro inp r h
    simp only [Regex.run, List.mem_map, List.mem_range] at h
    obtain ⟨k, hk, rfl⟩ := h
    have hlen : (inp.takeWhile p).length ≤ inp.length :=
      (List.takeWhile_sublist p).length_le
    refine ⟨min (inp.takeWhile p).length hi - k, ?_, ?_, rfl⟩
    · simp only [Regex.minLen]; omega
    · have := Nat.min_le_left (inp.takeWhile p).length hi
      omega
  | anyStar =>
    intro inp r h
    simp only [Regex.run, List.mem_map, List.mem_range] at h
    obtain ⟨k, _, rfl⟩ := h
    have hlen : (inp.takeWhile (fun c => c != '\n')).length ≤ inp.length :=
      (List.takeWhile_sublist _).length_le
    exact ⟨_, Nat.zero_le _, by omega, rfl⟩
  | opt c =>
    intro inp r h
    cases inp with
    | nil =>
      simp only [Regex.run, List.mem_singleton] at h
      exact ⟨0, Nat.zero_le _, Nat.zero_le _, by simpa using h⟩
    | cons d rest =>
      simp only [Regex.run] at h
      split at h
      · simp only [List.mem_cons, List.mem_singleton, List.not_mem_nil, or_false] at h
        rcases h with h | h
        · exact ⟨1, Nat.zero_le _, by simp, by simpa using h⟩
        · exact ⟨0, Nat.zero_le _, Nat.zero_le _, by simpa using h⟩
      · simp only [List.mem_singleton] at h
        exact ⟨0, Nat.zero_le _, Nat.zero_le _, by simpa using h⟩
  | eot =>
    intro inp r h
    simp only [Regex.run] at h
    split at h
    · simp only [List.mem_singleton] at h
      exact ⟨0, Nat.zero_le _, Nat.zero_le _, by simpa using h⟩
    · simp at h

theorem Pattern.matchAt_length (pat : Pattern) (inp m : List Char)
    (h : pat.matchAt inp = some m) : pat.grp.minLen ≤ m.length := by
  unfold Pattern.matchAt at h
  have hmem := List.mem_of_mem_head? h
  simp only [List.mem_flatMap, List.mem_map] at hmem
  obtain ⟨r1, _, r2, hr2, _, _, rfl⟩ := hmem
  obtain ⟨k, h1, h2, rfl⟩ := Regex.run_drop pat.grp r1 r2 hr2
  simp only [List.length_take, List.length_drop]
  omega

theorem Pattern.find_length (pat : Pattern) (inp m : List Char)
    (h : pat.find inp = some m) : pat.grp.minLen ≤ m.length := by
  induction inp with
  | nil => exact Pattern.matchAt_length pat [] m (by simpa [Pattern.find] using h)
  | cons c cs ih =>
    rw [Pattern.find] at h
    cases hm : pat.matchAt (c :: cs) with
    | some m1 =>
      rw [hm] at h
      simp only [Option.some.injEq] at h
      subst h
      exact Pattern.matchAt_length pat _ _ hm
    | none =>
      rw [hm] at h
      exact ih h

/-- A capture of the LSN pattern is never the empty string. -/
theorem LogLSNRegex_capture_ne_empty (line m : String)
    (h : LogLSNRegex.FindStringSubmatch line = some m) : m ≠ "" := by
  unfold Pattern.FindStringSubmatch at h
  cases hf : LogLSNRegex.find line.toList with
  | none => rw [hf] at h; simp at h
  | some cs =>
    rw [hf] at h
    simp only [Option.map_some', Option.some.injEq] at h
    have hlen := Pattern.find_length LogLSNRegex _ _ hf
    have h5 : LogLSNRegex.grp.minLen = 5 := by decide
    rw [h5] at hlen
    intro he
    rw [he] at h
    have : cs = [] := by
      have := congrArg String.toList h
      simpa using this
    rw [this] at hlen
    simp at hlen

theorem lastCapture_cons_some (f : String → Option String) (line m : String)
    (rest : List String) (h : f line = some m) :
    lastCapture f (line :: rest) = some ((lastCapture f rest).getD m) := by
  simp [lastCapture, List.filterMap_cons, h, List.getLast?_cons]

theorem lastCapture_cons_none (f : String → Option String) (line : String)
    (rest : List String) (h : f line = none) :
    lastCapture f (line :: rest) = lastCapture f rest := by
  simp [lastCapture, List.filterMap_cons, h]

/-- The loop keeps, for each of `lsn` and `ts`, the capture of the last line
that contributes one, and the value it started with when there is none. -/
theorem ScanCheckpointFromLog_loop_eq (lines : List String) :
    ∀ lsn ts : String,
      ScanCheckpointFromLog.loop lsn ts lines =
        ((lastCapture LogLSNRegex.FindStringSubmatch lines).getD lsn,
         (lastCapture txTimeOf lines).getD ts) := by
  induction lines with
  | nil => intro lsn ts; rfl
  | cons line rest ih =>
    intro lsn ts
    rw [ScanCheckpointFromLog.loop]
    cases hl : LogLSNRegex.FindStringSubmatch line with
    | some m =>
      have ht : txTimeOf line = none := by simp [txTimeOf, hl]
      simp only
      rw [ih, lastCapture_cons_some _ _ _ _ hl, lastCapture_cons_none _ _ _ ht]
      simp
    | none =>
      simp only
      cases htm : LogTxTimeRegex.FindStringSubmatch line with
      | some m =>
        have ht : txTimeOf line = some m := by simp [txTimeOf, hl, htm]
        simp only
        rw [ih, lastCapture_cons_none _ _ _ hl, lastCapture_cons_some _ _ _ _ ht]
        simp
      | none =>
        have ht : txTimeOf line = none := by simp [txTimeOf, hl, htm]
        simp only
        rw [ih, lastCapture_cons_none _ _ _ hl, lastCapture_cons_none _ _ _ ht]

theorem lastCapture_LSN_ne_empty (lines : List String) (l : String)
    (h : lastCapture LogLSNRegex.FindStringSubmatch lines = some l) : l ≠ "" := by
  unfold lastCapture at h
  have hmem := List.mem_of_mem_getLast? h
  obtain ⟨line, _, hline⟩ := List.mem_filterMap.mp hmem
  exact LogLSNRegex_capture_ne_empty line l hline

/-- C9, the claim refuted: a log of one line that both patterns match has an
LSN line and a timestamp line, yet the scan fails, because a line the LSN
pattern matches is not tried against the time pattern. -/
theorem scan_checkpoint_counterexample :
    LogLSNRegex.FindStringSubmatch bothLine = some "AE28/49B135E8" ∧
    LogTxTimeRegex.FindStringSubmatch bothLine = some "2021-03-01 16:17:48.597172+00" ∧
    ScanCheckpointFromLog [bothLine] = ("", "", some "lsn not found in log") := by
  decide

/-- C9, amended: for every server log given as the list of its lines,
`ScanCheckpointFromLog` succeeds if and only if some line matches the LSN
pattern and the last of the lines that match the time pattern but not the LSN
pattern exists and has a non-empty capture; it then returns the LSN captured
from the last line matching the LSN pattern and that timestamp; otherwise it
returns two empty strings and an error; on the log of the test it returns
`AE28/49B135E8` and `2021-03-01 16:17:48.597172+00`. -/
theorem scan_checkpoint (lines : List String) :
    ((ScanCheckpointFromLog lines).2.2 = none ↔
      (∃ l, lastCapture LogLSNRegex.FindStringSubmatch lines = some l) ∧
      (∃ t, lastCapture txTimeOf lines = some t ∧ t ≠ "")) ∧
    (∀ l t, lastCapture LogLSNRegex.FindStringSubmatch lines = some l →
      lastCapture txTimeOf lines = some t → t ≠ "" →
      ScanCheckpointFromLog lines = (l, t, none)) ∧
    ((ScanCheckpointFromLog lines).2.2 ≠ none →
      ScanCheckpointFromLog lines = ("", "", some "lsn not found in log")) ∧
    ScanCheckpointFromLog testLog = ("AE28/49B135E8", "2021-03-01 16:17:48.597172+00", none) := by
  have hsucc : ∀ l t, lastCapture LogLSNRegex.FindStringSubmatch lines = some l →
      lastCapture txTimeOf lines = some t → t ≠ "" →
      ScanCheckpointFromLog lines = (l, t, none) := by
    intro l t hl ht hne
    have hlne := lastCapture_LSN_ne_empty lines l hl
    unfold ScanCheckpointFromLog
    rw [ScanCheckpointFromLog_loop_eq, hl, ht]
    simp [hlne, hne]
  refine ⟨⟨?_, ?_⟩, hsucc, ?_, by decide⟩
  · intro h
    unfold ScanCheckpointFromLog at h
    rw [ScanCheckpointFromLog_loop_eq] at h
    dsimp only at h
    split at h
    · simp at h
    · rename_i hne
      simp only [not_or] at hne
      constructor
      · cases hl : lastCapture LogLSNRegex.FindStringSubmatch lines with
        | none => rw [hl] at hne; simp at hne
        | some l => exact ⟨l, rfl⟩
      · cases ht : lastCapture txTimeOf lines with
        | none => rw [ht] at hne; simp at hne
        | some t =>
          rw [ht] at hne
          exact ⟨t, rfl, by simpa using hne.2⟩
  · rintro ⟨⟨l, hl⟩, t, ht, hne⟩
    rw [hsucc l t hl ht hne]
  · intro h
    unfold ScanCheckpointFromLog at h ⊢
    dsimp only at h ⊢
    split
    · rfl
    · rename_i hne
      rw [if_neg hne] at h
      simp at h

/-! ## C10: `PGTime2Time` -/

theorem wrapInt64_of_range (x : Int) (h1 : -(2 ^ 63) ≤ x) (h2 : x < 2 ^ 63) : wrapInt64 x = x := by
  unfold wrapInt64
  omega

theorem wrapInt64_of_high (x : Int) (h1 : 2 ^ 63 ≤ x) (h2 : x < 2 ^ 64) :
    wrapInt64 x = x - 2 ^ 64 := by
  unfold wrapInt64
  omega

theorem tmod_million_bounds (m : Int) :
    -1000000 < Int.tmod m 1000000 ∧ Int.tmod m 1000000 < 1000000 := by
  refine ⟨?_, Int.tmod_lt_of_pos m (by decide)⟩
  rcases Int.le_total 0 m with h | h
  · have := Int.tmod_nonneg 1000000 h
    omega
  · have h1 : Int.tmod m 1000000 = -Int.tmod (-m) 1000000 := by
      rw [Int.tmod_def, Int.tmod_def, Int.neg_tdiv]
      omega
    have h2 := Int.tmod_lt_of_pos (-m) (show (0 : Int) < 1000000 by decide)
    omega

/-- The two arguments handed to `time.Unix` denote the instant `micro`
microseconds after the Unix epoch, for every `int64` value `micro`. -/
theorem unix_args_of_micro (micro : Int) :
    Int.tdiv micro microInSecond * 1000000000 +
      wrapInt64 (Int.tmod micro microInSecond * nsInSecond) = micro * 1000 := by
  unfold microInSecond nsInSecond
  obtain ⟨h1, h2⟩ := tmod_million_bounds micro
  rw [wrapInt64_of_range _ (by omega) (by omega)]
  have := Int.tmod_add_tdiv micro 1000000
  omega

/-- C10, the claim refuted: for the commit time `2^64 - 1` the arguments of
`time.Unix` are 946684799 seconds and 999999000 nanoseconds, one microsecond
before 2000-01-01, not `946684800000000 + (2^64 - 1)` microseconds after the
Unix epoch. -/
theorem PGTime2Time_counterexample :
    PGTime2Time (2 ^ 64 - 1) = (946684799, 999999000) ∧
    (PGTime2Time (2 ^ 64 - 1)).1 * 1000000000 + (PGTime2Time (2 ^ 64 - 1)).2
      ≠ (946684800000000 + ((2 ^ 64 - 1 : Nat) : Int)) * 1000 := by
  decide

/-- C10, amended: for every commit time `ts` with `946684800000000 + ts < 2^63`
the seconds and nanoseconds that `PGTime2Time` hands to `time.Unix` satisfy
`sec * 1000000000 + nsec = (946684800000000 + ts) * 1000`; for every `ts` from
`2^63` up to `2^64 - 1`, which `int64(ts)` reads as the negative number
`ts - 2^64`, they satisfy
`sec * 1000000000 + nsec = (946684800000000 + ts - 2^64) * 1000`. -/
theorem PGTime2Time_unix (ts : Nat) :
    ((946684800000000 : Int) + ts < 2 ^ 63 →
      (PGTime2Time ts).1 * 1000000000 + (PGTime2Time ts).2
        = (946684800000000 + (ts : Int)) * 1000) ∧
    ((2 : Int) ^ 63 ≤ ts → (ts : Int) < 2 ^ 64 →
      (PGTime2Time ts).1 * 1000000000 + (PGTime2Time ts).2
        = (946684800000000 + (ts : Int) - 2 ^ 64) * 1000) := by
  constructor
  · intro h
    have hts : wrapInt64 (ts : Int) = ts := wrapInt64_of_range _ (by omega) (by omega)
    have hm : wrapInt64 (microsecFromUnixEpochToY2K + (ts : Int)) = 946684800000000 + (ts : Int) := by
      unfold microsecFromUnixEpochToY2K
      rw [wrapInt64_of_range _ (by omega) (by omega)]
      omega
    unfold PGTime2Time
    simp only [hts, hm]
    exact unix_args_of_micro _
  · intro h1 h2
    have hts : wrapInt64 (ts : Int) = ts - 2 ^ 64 := wrapInt64_of_high _ h1 h2
    have hm : wrapInt64 (microsecFromUnixEpochToY2K + ((ts : Int) - 2 ^ 64))
        = 946684800000000 + (ts : Int) - 2 ^ 64 := by
      unfold microsecFromUnixEpochToY2K
      rw [wrapInt64_of_range _ (by omega) (by omega)]
      omega
    unfold PGTime2Time
    simp only [hts, hm]
    exact unix_args_of_micro _

/-- C10, the amended claim at the commit time 0 (2000-01-01T00:00:00Z) and at
the commit time `2^64 - 1000000` (one second before it). -/
theorem PGTime2Time_unix_witness :
    (PGTime2Time 0).1 * 1000000000 + (PGTime2Time 0).2
      = (946684800000000 + ((0 : Nat) : Int)) * 1000 ∧
    (PGTime2Time (2 ^ 64 - 1000000)).1 * 1000000000 + (PGTime2Time (2 ^ 64 - 1000000)).2
      = (946684800000000 + ((2 ^ 64 - 1000000 : Nat) : Int) - 2 ^ 64) * 1000 :=
  ⟨(PGTime2Time_unix 0).1 (by decide),
   (PGTime2Time_unix (2 ^ 64 - 1000000)).2 (by decide) (by decide)⟩

/-! ## C11: the parameter indices of `handleUpdate` -/

/-- The key loop runs out of range exactly when one of the values its index
takes is not below the length of the slices. -/
theorem bindKeys_eq_none_iff (keys : List pb.Field) :
    ∀ (i j : Nat) (ps : Params),
      handleUpdate.bindKeys keys i j ps = none ↔
        ∃ x ∈ handleUpdate.keyIndices keys i j, ps.vals.length ≤ x := by
  induction keys with
  | nil => intro i j ps; simp [handleUpdate.bindKeys, handleUpdate.keyIndices]
  | cons f rest ih =>
    intro i j ps
    rw [handleUpdate.bindKeys, handleUpdate.keyIndices]
    by_cases hlt : i + j < ps.vals.length
    · cases hb : ps.bind (i + j) f with
      | none =>
        unfold Params.bind at hb
        rw [if_pos hlt] at hb
        cases hb
      | some ps1 =>
        have hl := Params.bind_length ps ps1 _ f hb
        simp only
        rw [ih (i + 1) (i + j) ps1, hl]
        constructor
        · rintro ⟨x, hx, hle⟩
          exact ⟨x, List.mem_cons_of_mem _ hx, hle⟩
        · rintro ⟨x, hx, hle⟩
          rcases List.mem_cons.mp hx with rfl | hx
          · omega
          · exact ⟨x, hx, hle⟩
    · rw [Params.bind_none ps _ f (by omega)]
      simp only [true_iff]
      exact ⟨i + j, List.mem_cons_self _ _, by omega⟩

/-- The value of the index in round `n` of the key loop: started with `i` and
`j`, it is `j + (n + 1) * i + n * (n + 1) / 2`. -/
theorem keyIndices_getElem (keys : List pb.Field) :
    ∀ (i j n : Nat), n < keys.length →
      (handleUpdate.keyIndices keys i j)[n]? = some (j + (n + 1) * i + n * (n + 1) / 2) := by
  induction keys with
  | nil => intro i j n h; simp at h
  | cons f rest ih =>
    intro i j n h
    rw [handleUpdate.keyIndices]
    cases n with
    | zero => simp [Nat.add_comm]
    | succ n =>
      have hn : n < rest.length := by simpa using h
      rw [List.getElem?_cons_succ, ih (i + 1) (i + j) n hn]
      have htri : (n + 1) * (n + 1 + 1) / 2 = n * (n + 1) / 2 + (n + 1) := by
        have : (n + 1) * (n + 1 + 1) = n * (n + 1) + (n + 1) * 2 := by ring
        rw [this, Nat.add_mul_div_right _ _ (by decide : 0 < 2)]
      rw [htri]
      congr 1
      have : (n + 1 + 1) * i = (n + 1) * i + i := by ring
      have h2 : (n + 1) * (i + 1) = (n + 1) * i + (n + 1) := by ring
      omega

/-- In `handleUpdate` the key loop starts with `i = 0` and `j = len(sets)`:
key field `n` is written at index `len(sets) + n * (n + 1) / 2`, which is
`len(sets) + n` for the first two key fields only. -/
theorem keyIndices_of_handleUpdate (keys sets : List pb.Field) (n : Nat) (h : n < keys.length) :
    (handleUpdate.keyIndices keys 0 sets.length)[n]? = some (sets.length + n * (n + 1) / 2) := by
  rw [keyIndices_getElem keys 0 sets.length n h]
  simp

/-- `handleUpdate` panics on its index exactly when the SET list is non-empty
and there are three or more key fields. -/
theorem handleUpdate_exec_panicked_iff (w : Target) (tr : List Effect) (m : pb.Change)
    (keys sets : List pb.Field) :
    (handleUpdate.exec w tr m keys sets).2 = Status.panicked ↔ sets ≠ [] ∧ 3 ≤ keys.length := by
  constructor
  · intro h
    by_cases hs : sets = []
    · subst hs
      simp [handleUpdate.exec] at h
    · by_cases hk : keys = []
      · subst hk
        simp [handleUpdate.exec] at h
      · refine ⟨hs, ?_⟩
        by_contra hlt
        rw [handleUpdate_exec_issues w tr m keys sets hs hk (by omega)] at h
        revert h
        cases (w.call tr _).2 <;> simp [Status.ofErr]
  · rintro ⟨hs, hk⟩
    rw [handleUpdate_exec_panics w tr m keys sets hs hk]

/-- With a null OldTuple and a cached key list, `handleUpdate` panics when the
capacity it requests for the SET list is negative. -/
theorem handleUpdate_negative_capacity (w : Target) (p : PGXSink) (tr : List Effect)
    (m : pb.Change) (kf : List String) (hold : m.OldTuple = none)
    (hkf : p.schema m.Namespace m.Table = Except.ok kf)
    (hcap : handleUpdate.setsCapacity m kf < 0) :
    handleUpdate w p tr m = (tr, Status.panicked) := by
  unfold handleUpdate.setsCapacity at hcap
  unfold handleUpdate
  rw [hold]
  simp only [hkf]
  rw [if_pos (by omega)]

/-- C11, the failing inputs: for the UPDATE of `public.t3` with NewTuple `(f3)`
and OldTuple `(f1, f2, f3)` the slices have `1 + 3 = 4` slots and the key loop
writes at the indices 1, 2 and 4, so the third key field is not bound at index
`1 + 2` and the write at index 4 is out of range: `handleUpdate` panics. For
the UPDATE with NewTuple `(f3)`, a null OldTuple and the cached key `(f1, f2)`
the capacity requested for the SET list is `-1`: `handleUpdate` panics. -/
theorem handleUpdate_index_out_of_range :
    (handleUpdate.keyIndices [f1, f2, f3] 0 [f3].length = [1, 2, 4] ∧
     [f3].length + [f1, f2, f3].length = 4 ∧
     handleUpdate Target.accepting sink0 [] (updateT3 [f3] (some [f1, f2, f3]))
       = ([], Status.panicked)) ∧
    (sink0.schema "public" "t3" = Except.ok ["f1", "f2"] ∧
     handleUpdate.setsCapacity (updateT3 [f3] none) ["f1", "f2"] = -1 ∧
     handleUpdate Target.accepting sink0 [] (updateT3 [f3] none) = ([], Status.panicked)) :=
  ⟨⟨by decide, by decide, by decide⟩, ⟨rfl, by decide, by decide⟩⟩

end sink
